import Mathlib

set_option maxRecDepth 100000
set_option maxHeartbeats 4000000

/-!
# Verification of the `mylayer2` Ethereum execution-layer core

Shallow embedding of the repository's Rust sources into Lean 4:

* `common/trie.rs` — the Merkle Patricia Trie (`ModifiedTrie`) and the
  `MockTrie` (BTreeMap-backed) used by the world state,
* `layer1/world_state.rs` — the journaled world state,
* `layer1/vm.rs`, `layer1/operations.rs` — intrinsic gas, transaction
  validation and `tx_execute`,
* `layer1/block.rs` — `fake_exponential`, block hashing and header checks,
* `layer1/transaction.rs` — transaction serialization.

Machine integers are modelled as `Nat` with explicit `% 2^w` or explicit
overflow panics where the Rust types would wrap or panic.  Rust panics are
modelled by `Except String`.  Keccak-256 is implemented in full so that root
hashes evaluate to the real byte strings.
-/

namespace Mylayer2

/-! ## Bytes and 64-bit lanes -/

def U64MOD : Nat := 2 ^ 64

def rotl64 (x r : Nat) : Nat :=
  ((x <<< r) ||| (x >>> (64 - r))) % U64MOD

def xor64 (a b : Nat) : Nat := a ^^^ b

/-- Big-endian minimal byte representation, fuel-driven so that it reduces
in the kernel.  `natBEAux fuel n` is correct whenever `n < 256 ^ fuel`. -/
def natBEAux : Nat → Nat → List Nat
  | _, 0 => []
  | 0, _ => []
  | fuel + 1, n => natBEAux fuel (n / 256) ++ [n % 256]

/-- Big-endian minimal byte representation of a `Nat` (zero ↦ `[]`). -/
def natBE (n : Nat) : List Nat := natBEAux n n

/-- Fixed-width big-endian bytes (used for `H256`, `Address`, `to_be_bytes`). -/
def natBEFixed (w n : Nat) : List Nat :=
  (List.range w).map (fun i => (n >>> (8 * (w - 1 - i))) % 256)

/-! ## Keccak-256 (the Ethereum variant: pad byte `0x01`) -/

def keccakRC : List Nat :=
  ([[0x0000000000000001, 0x0000000000008082, 0x800000000000808a],
    [0x8000000080008000, 0x000000000000808b, 0x0000000080000001],
    [0x8000000080008081, 0x8000000000008009, 0x000000000000008a],
    [0x0000000000000088, 0x0000000080008009, 0x000000008000000a],
    [0x000000008000808b, 0x800000000000008b, 0x8000000000008089],
    [0x8000000000008003, 0x8000000000008002, 0x8000000000000080],
    [0x000000000000800a, 0x800000008000000a, 0x8000000080008081],
    [0x8000000000008080, 0x0000000080000001, 0x8000000080008008]]).flatten

def keccakRot : List Nat :=
  ([[0, 1, 62, 28, 27],
    [36, 44, 6, 55, 20],
    [3, 10, 43, 25, 39],
    [41, 45, 15, 21, 8],
    [18, 2, 61, 56, 14]]).flatten

/-- For output position `j = y + 5*((2x+3y) % 5)` of the π step, the source
lane index `i = x + 5*y` it reads from. -/
def keccakPiSrc : List Nat :=
  ([[0, 6, 12, 18, 24],
    [3, 9, 10, 16, 22],
    [1, 7, 13, 19, 20],
    [4, 5, 11, 17, 23],
    [2, 8, 14, 15, 21]]).flatten

/-- One Keccak-f[1600] round. State is 25 lanes, index `x + 5*y`. -/
def keccakRound (rc : Nat) (st : List Nat) : List Nat :=
  let get : Nat → Nat → Nat := fun x y => st.getD (x + 5 * y) 0
  let c : List Nat := (List.range 5).map (fun x =>
    (((get x 0 ^^^ get x 1) ^^^ get x 2) ^^^ get x 3) ^^^ get x 4)
  let d : List Nat := (List.range 5).map (fun x =>
    (c.getD ((x + 4) % 5) 0) ^^^ rotl64 (c.getD ((x + 1) % 5) 0) 1)
  let a1 : List Nat := (List.range 25).map (fun i =>
    st.getD i 0 ^^^ d.getD (i % 5) 0)
  -- ρ and π: B[y + 5*((2x+3y) % 5)] = rotl(A1[x + 5y], rot[x + 5y]);
  -- `keccakPiSrc` is that index map inverted.
  let b : List Nat := keccakPiSrc.map (fun i =>
    rotl64 (a1.getD i 0) (keccakRot.getD i 0))
  let chi : List Nat := (List.range 25).map (fun i =>
    let x := i % 5
    let y := i / 5
    let bx : Nat → Nat := fun xx => b.getD (xx % 5 + 5 * y) 0
    bx x ^^^ ((bx (x + 1) ^^^ (U64MOD - 1)) &&& bx (x + 2)))
  match chi with
  | a0 :: rest => (a0 ^^^ rc) :: rest
  | [] => []

def keccakF (st : List Nat) : List Nat :=
  keccakRC.foldl (fun s rc => keccakRound rc s) st

/-- Split a byte list into blocks of `r` bytes (input length must be a
multiple of `r`; trailing partial blocks are kept as-is). -/
def toBlocksAux (r : Nat) : Nat → List Nat → List (List Nat)
  | 0, _ => []
  | _, [] => []
  | fuel + 1, bs => bs.take r :: toBlocksAux r fuel (bs.drop r)

def toBlocks (r : Nat) (bs : List Nat) : List (List Nat) :=
  if r = 0 then [] else toBlocksAux r bs.length bs

/-- Interpret 8 bytes as a little-endian 64-bit lane. -/
def laneOfBytesLE (bs : List Nat) : Nat :=
  bs.foldr (fun b acc => acc * 256 + b) 0

/-- XOR a 136-byte block into the first 17 lanes of the state. -/
def absorbBlock (st : List Nat) (block : List Nat) : List Nat :=
  let lanes := (List.range 17).map (fun j =>
    laneOfBytesLE ((block.drop (8 * j)).take 8))
  (List.range 25).map (fun i =>
    if i < 17 then st.getD i 0 ^^^ lanes.getD i 0 else st.getD i 0)

/-- Keccak pad10*1 with domain byte `0x01` (Ethereum Keccak-256), rate 136. -/
def keccakPad (bs : List Nat) : List Nat :=
  let q := 136 - bs.length % 136
  if q = 1 then bs ++ [0x81]
  else bs ++ [0x01] ++ List.replicate (q - 2) 0 ++ [0x80]

def keccak256 (bs : List Nat) : List Nat :=
  let blocks := toBlocks 136 (keccakPad bs)
  let final := blocks.foldl (fun st blk => keccakF (absorbBlock st blk))
    (List.replicate 25 0)
  ((List.range 4).map (fun j => natBEFixed 8 (final.getD j 0) |>.reverse)).flatten

/-! ## RLP encoding (`rlp` crate behaviour as used by the sources) -/

inductive RItem where
  | str (bs : List Nat)
  | list (items : List RItem)

def rlpLenPrefix (base : Nat) (payload : List Nat) : List Nat :=
  if payload.length ≤ 55 then (base + payload.length) :: payload
  else
    let lenBytes := natBE payload.length
    (base + 55 + lenBytes.length) :: lenBytes ++ payload

mutual

def rlpEncode : RItem → List Nat
  | .str bs =>
      match bs with
      | [b] => if b ≤ 0x7f then [b] else rlpLenPrefix 0x80 [b]
      | _ => rlpLenPrefix 0x80 bs
  | .list items => rlpLenPrefix 0xc0 (rlpEncodeList items)

def rlpEncodeList : List RItem → List Nat
  | [] => []
  | i :: rest => rlpEncode i ++ rlpEncodeList rest

end

/-- RLP item for an unsigned integer (minimal big-endian, zero = empty). -/
def rlpNat (n : Nat) : RItem := .str (natBE n)

/-- RLP item for a 32-byte hash value. -/
def rlpH256 (n : Nat) : RItem := .str (natBEFixed 32 n)

/-- RLP item for a 20-byte address. -/
def rlpAddr (n : Nat) : RItem := .str (natBEFixed 20 n)

/-! ## The Merkle Patricia Trie (`common/trie.rs`, `ModifiedTrie`) -/

/-- `TrieNodeType` from `common/trie.rs`: leaf, extension, branch.  A branch
holds 16 optional children (the embedded list always has length 16) and an
optional value. -/
inductive TrieNode where
  | Leaf (keyNibbles : List Nat) (value : List Nat)
  | Extension (keyNibbles : List Nat) (child : TrieNode)
  | Branch (children : List (Option TrieNode)) (value : Option (List Nat))

/-- `get_prefix` from `common/trie.rs`. -/
def getPrefix (key : List Nat) (isLeaf : Bool) : Nat :=
  let flag := if isLeaf then 2 else 0
  if key.length % 2 = 1 then ((flag + 1) <<< 4) ||| key.headD 0
  else flag <<< 4

/-- Pack pairs of nibbles into bytes (`(key[i] << 4) | key[i+1]`). -/
def packNibblePairs : List Nat → List Nat
  | a :: b :: rest => ((a <<< 4) ||| b) :: packNibblePairs rest
  | _ => []

/-- `hex_prefix_encode` from `common/trie.rs`. -/
def hexPrefixEncode (key : List Nat) (isLeaf : Bool) : List Nat :=
  let body := if key.length % 2 = 1 then packNibblePairs key.tail
              else packNibblePairs key
  getPrefix key isLeaf :: body

/-- `bytes_to_nibbles` from `common/trie.rs`. -/
def bytesToNibbles (bytes : List Nat) : List Nat :=
  (bytes.map (fun b => [b >>> 4, b &&& 0x0F])).flatten

/-- `nibbles_to_bytes` from `common/trie.rs` (odd tail packs high). -/
def nibblesToBytes : List Nat → List Nat
  | a :: b :: rest => ((a <<< 4) ||| b) :: nibblesToBytes rest
  | [a] => [a <<< 4]
  | [] => []

mutual

/-- Structural size measure used as recursion fuel for the trie algorithms. -/
def nodeSize : TrieNode → Nat
  | .Leaf _ _ => 1
  | .Extension _ c => 1 + nodeSize c
  | .Branch cs _ => 1 + childrenSize cs

def childrenSize : List (Option TrieNode) → Nat
  | [] => 0
  | none :: rest => childrenSize rest
  | some c :: rest => 1 + nodeSize c + childrenSize rest

end

/-- Node cap applied to a child node's RLP item: inline the child's RLP when
shorter than 32 bytes, otherwise its 32-byte Keccak hash as a byte string. -/
def capR (it : RItem) : RItem :=
  let enc := rlpEncode it
  if enc.length < 32 then it else .str (keccak256 enc)

mutual

/-- The composition function `c` of the yellow paper, as implemented by the
`rlp_append` impls in `common/trie.rs`: the returned `RItem` is what the
node's `RlpStream` contains. -/
def nodeRItem : TrieNode → RItem
  | .Leaf k v => .list [.str (hexPrefixEncode k true), .str v]
  | .Extension k c =>
      .list [.str (hexPrefixEncode k false), capR (nodeRItem c)]
  | .Branch cs v =>
      .list (capChildren cs ++ [.str (v.getD [])])

def capChildren : List (Option TrieNode) → List RItem
  | [] => []
  | none :: rest => .str [] :: capChildren rest
  | some c :: rest => capR (nodeRItem c) :: capChildren rest

end

/-- `TrieNodeType::hash`. -/
def nodeHash (n : TrieNode) : List Nat := keccak256 (rlpEncode (nodeRItem n))

/-- `shared_prefix_len` from `common/trie.rs`. -/
def sharedPrefixLen : List Nat → List Nat → Nat
  | a :: as', b :: bs' => if a = b then 1 + sharedPrefixLen as' bs' else 0
  | _, _ => 0

def emptyChildren : List (Option TrieNode) := List.replicate 16 none

/-- `_insert_at` from `common/trie.rs`, fuel-driven so that it reduces in the
kernel; the fuel used by the wrappers always suffices because every recursive
call shrinks the node or the nibble list. -/
def insertAt : Nat → TrieNode → List Nat → List Nat → TrieNode
  | 0, node, _, _ => node
  | fuel + 1, node, nibbles, value =>
    match node with
    | .Leaf lk lv =>
        let cp := sharedPrefixLen lk nibbles
        if cp = lk.length ∧ cp = nibbles.length then .Leaf nibbles value
        else
          let c0 := emptyChildren
          let suffixOld := lk.drop cp
          let (c1, v1) :=
            if suffixOld.length = 0 then (c0, some lv)
            else (c0.set (suffixOld.headD 0) (some (.Leaf suffixOld.tail lv)),
                  none)
          let suffixNew := nibbles.drop cp
          let (c2, v2) :=
            if suffixNew.length = 0 then (c1, some value)
            else (c1.set (suffixNew.headD 0) (some (.Leaf suffixNew.tail value)),
                  v1)
          if cp = 0 then .Branch c2 v2
          else .Extension (lk.take cp) (.Branch c2 v2)
    | .Extension ek child =>
        let cp := sharedPrefixLen ek nibbles
        if cp = ek.length then
          .Extension ek (insertAt fuel child (nibbles.drop cp) value)
        else
          let c0 := emptyChildren
          let suffixOld := ek.drop cp
          let c1 :=
            if suffixOld.length = 1 then c0.set (suffixOld.headD 0) (some child)
            else c0.set (suffixOld.headD 0)
                   (some (.Extension suffixOld.tail child))
          let suffixNew := nibbles.drop cp
          let (c2, v2) :=
            if suffixNew.length = 0 then (c1, some value)
            else (c1.set (suffixNew.headD 0) (some (.Leaf suffixNew.tail value)),
                  none)
          if cp = 0 then .Branch c2 v2
          else .Extension (ek.take cp) (.Branch c2 v2)
    | .Branch cs v =>
        match nibbles with
        | [] => .Branch cs (some value)
        | i :: rest =>
          match cs.getD i none with
          | some child =>
              .Branch (cs.set i (some (insertAt fuel child rest value))) v
          | none =>
              .Branch (cs.set i (some (.Leaf rest value))) v

/-- `_delete_at` from `common/trie.rs`.  Rust panics (the slice
`nibbles[0..len]` on a short list and the `take().unwrap()` on an absent
branch child) are modelled by `Except.error`. -/
def deleteAt : Nat → TrieNode → List Nat → Except String (Option TrieNode)
  | 0, _, _ => .error "out of fuel"
  | fuel + 1, node, nibbles =>
    match node with
    | .Leaf lk lv =>
        if lk = nibbles then pure none else pure (some (.Leaf lk lv))
    | .Extension ek child =>
        if nibbles.length < ek.length then
          .error "slice index out of range"
        else if nibbles.take ek.length = ek then do
          let res ← deleteAt fuel child (nibbles.drop ek.length)
          match res with
          | some (.Leaf ck cv) => pure (some (.Leaf (ek ++ ck) cv))
          | some (.Extension ck cc) => pure (some (.Extension (ek ++ ck) cc))
          | some (.Branch bcs bv) =>
              pure (some (.Extension ek (.Branch bcs bv)))
          | none => pure none
        else pure (some (.Extension ek child))
    | .Branch cs v => do
        let (cs', v') ←
          match nibbles with
          | [] => pure (cs, (none : Option (List Nat)))
          | i :: rest => do
              match cs.getD i none with
              | none => .error "called unwrap on a None value"
              | some child => do
                  let newChild ← deleteAt fuel child rest
                  pure (cs.set i newChild, v)
        let nChildren := (cs'.filter Option.isSome).length
        if v'.isSome then
          if nChildren = 0 then
            pure (some (.Leaf [] []))  -- the source drops the branch value here
          else pure (some (.Branch cs' v'))
        else if nChildren = 0 then pure none
        else if nChildren > 1 then pure (some (.Branch cs' v'))
        else
          let idx := (cs'.findIdx Option.isSome)
          match cs'.getD idx none with
          | some (.Leaf ck cv) => pure (some (.Leaf (idx :: ck) cv))
          | some (.Extension ck cc) => pure (some (.Extension (idx :: ck) cc))
          | some (.Branch bcs bv) =>
              pure (some (.Extension [idx] (.Branch bcs bv)))
          | none => .error "called unwrap on a None value"

/-- `ModifiedTrie` from `common/trie.rs`. -/
structure ModifiedTrie where
  root : Option TrieNode

/-- `EMPTY_TRIE_HASH` from `common/constants.rs`. -/
def EMPTY_TRIE_HASH : List Nat :=
  [0x56, 0xe8, 0x1f, 0x17, 0x1b, 0xcc, 0x55, 0xa6, 0xff, 0x83, 0x45, 0xe6,
   0x92, 0xc0, 0xf8, 0x6e, 0x5b, 0x48, 0xe0, 0x1b, 0x99, 0x6c, 0xad, 0xc0,
   0x01, 0x62, 0x2f, 0xb5, 0xe3, 0x63, 0xb4, 0x21]

/-- `EMPTY_LIST_HASH` from `common/constants.rs`. -/
def EMPTY_LIST_HASH : List Nat :=
  [0x1d, 0xcc, 0x4d, 0xe8, 0xde, 0xc7, 0x5d, 0x7a, 0xab, 0x85, 0xb5, 0x67,
   0xb6, 0xcc, 0xd4, 0x1a, 0xd3, 0x12, 0x45, 0x1b, 0x94, 0x8a, 0x74, 0x13,
   0xf0, 0xa1, 0x42, 0xfd, 0x40, 0xd4, 0x93, 0x47]

namespace ModifiedTrie

def new : ModifiedTrie := ⟨none⟩

/-- `ModifiedTrie::insert`. -/
def insert (t : ModifiedTrie) (key value : List Nat) : ModifiedTrie :=
  let nibbles := bytesToNibbles key
  match t.root with
  | some inner =>
      ⟨some (insertAt (nodeSize inner + nibbles.length + 1) inner nibbles value)⟩
  | none => ⟨some (.Leaf nibbles value)⟩

/-- `ModifiedTrie::delete` (propagating Rust panics). -/
def delete (t : ModifiedTrie) (key : List Nat) : Except String ModifiedTrie :=
  let nibbles := bytesToNibbles key
  match t.root with
  | some inner => do
      let r ← deleteAt (nodeSize inner + nibbles.length + 1) inner nibbles
      pure ⟨r⟩
  | none => pure t

/-- `ModifiedTrie::root_hash`. -/
def rootHash (t : ModifiedTrie) : List Nat :=
  match t.root with
  | some r => nodeHash r
  | none => EMPTY_TRIE_HASH

end ModifiedTrie

/-! ## The BTreeMap-backed `MockTrie` (`common/trie.rs`) and the journaled
world state (`layer1/world_state.rs`)

A Rust `BTreeMap` is modelled as an association list sorted strictly by key;
`mapInsert`/`mapDelete`/`mapGet` mirror `BTreeMap::{insert, remove, get}`,
and `mapModify` mirrors in-place mutation through `get_mut`. -/

def mapGet {β : Type} : List (Nat × β) → Nat → Option β
  | [], _ => none
  | (k', v') :: rest, k => if k = k' then some v' else mapGet rest k

def mapInsert {β : Type} : List (Nat × β) → Nat → β → List (Nat × β)
  | [], k, v => [(k, v)]
  | (k', v') :: rest, k, v =>
      if k < k' then (k, v) :: (k', v') :: rest
      else if k = k' then (k, v) :: rest
      else (k', v') :: mapInsert rest k v

def mapDelete {β : Type} : List (Nat × β) → Nat → List (Nat × β)
  | [], _ => []
  | (k', v') :: rest, k => if k = k' then rest else (k', v') :: mapDelete rest k

def mapModify {β : Type} : List (Nat × β) → Nat → (β → β) → List (Nat × β)
  | [], _, _ => []
  | (k', v') :: rest, k, f =>
      if k = k' then (k', f v') :: rest else (k', v') :: mapModify rest k f

/-- Strictly-ascending key order — the `BTreeMap` representation invariant. -/
def mapSorted {β : Type} (m : List (Nat × β)) : Prop :=
  m.Pairwise (fun p q => p.1 < q.1)

/-- `MockTrie::root_hash`: one running Keccak over `encode_pair` of every
entry in ascending key order. -/
def mockRootHash {β : Type} (encodePair : Nat → β → List Nat)
    (data : List (Nat × β)) : List Nat :=
  keccak256 ((data.map (fun p => encodePair p.1 p.2)).flatten)

/-- `StorageCodec::encode_pair` from `layer1/world_state.rs`:
`(keccak(key_be32), rlp(value))`. -/
def storageEncodePair (key value : Nat) : List Nat :=
  keccak256 (natBEFixed 32 key) ++ rlpEncode (rlpNat value)

/-- `AccountState` from `layer1/world_state.rs`.  `storageRoot` and
`codeHash` are the raw 32-byte strings. -/
structure AccountState where
  nonce : Nat
  balance : Nat
  storageRoot : List Nat
  codeHash : List Nat
  code : List Nat
  storage : List (Nat × Nat)
  deriving DecidableEq

/-- `AccountState::default()`: note `storage_root` and `code_hash` are the
all-zero hash, not the hashes of the empty storage/code. -/
def AccountState.default : AccountState :=
  { nonce := 0, balance := 0, storageRoot := natBEFixed 32 0,
    codeHash := natBEFixed 32 0, code := [], storage := [] }

/-- `AccountState::update_storage_root`. -/
def AccountState.updateStorageRoot (a : AccountState) : AccountState :=
  { a with storageRoot := mockRootHash storageEncodePair a.storage }

/-- `AccountState::update_code_hash`. -/
def AccountState.updateCodeHash (a : AccountState) : AccountState :=
  { a with codeHash := keccak256 a.code }

/-- `AccountState::new(code)`: default, then set code and re-derive only the
code hash (the storage root stays all-zero). -/
def AccountState.new (code : List Nat) : AccountState :=
  AccountState.updateCodeHash { AccountState.default with code := code }

/-- The account RLP (`impl Encodable for AccountState`): the 4-tuple
`[nonce, balance, storage_root, code_hash]`. -/
def accountRItem (a : AccountState) : RItem :=
  .list [rlpNat a.nonce, rlpNat a.balance, .str a.storageRoot, .str a.codeHash]

/-- `StateCodec::encode_pair`: `(keccak(address_be20), rlp(account))`. -/
def stateEncodePair (addr : Nat) (a : AccountState) : List Nat :=
  keccak256 (natBEFixed 20 addr) ++ rlpEncode (accountRItem a)

/-- `JournalEntry` from `layer1/world_state.rs`. -/
inductive JournalEntry where
  | BalanceChange (address : Nat) (oldValue : Nat)
  | NonceChange (address : Nat) (oldValue : Nat)
  | StorageChange (address : Nat) (key : Nat) (oldValue : Option Nat)
  | CodeChange (address : Nat) (oldCode : List Nat) (oldCodeHash : List Nat)
  | AccountCreated (address : Nat)
  | AccountDeleted (address : Nat) (oldAccount : AccountState)
  deriving DecidableEq

/-- `WorldStateTrie` from `layer1/world_state.rs`. -/
structure WorldState where
  inner : List (Nat × AccountState)
  journal : Option (List JournalEntry)
  deriving DecidableEq

abbrev WsRes (α : Type) := Except String α

namespace WorldState

def new : WorldState := ⟨[], none⟩

/-- `WorldStateTrie::checkpoint`; panics when a journal is already open. -/
def checkpoint (ws : WorldState) : WsRes WorldState :=
  if ws.journal.isSome then .error "Checkpoint already exists"
  else pure { ws with journal := some [] }

/-- `push_journal`: append only when a journal is open. -/
def pushJournal (ws : WorldState) (e : JournalEntry) : WorldState :=
  { ws with journal := ws.journal.map (· ++ [e]) }

/-- `revert_journal_entry`.  The `unwrap` on a missing account is an error. -/
def revertEntry (m : List (Nat × AccountState)) :
    JournalEntry → WsRes (List (Nat × AccountState))
  | .BalanceChange a old =>
      match mapGet m a with
      | none => .error "called unwrap on a None value"
      | some _ => pure (mapModify m a (fun acct => { acct with balance := old }))
  | .NonceChange a old =>
      match mapGet m a with
      | none => .error "called unwrap on a None value"
      | some _ => pure (mapModify m a (fun acct => { acct with nonce := old }))
  | .StorageChange a key old =>
      match mapGet m a with
      | none => .error "called unwrap on a None value"
      | some _ => pure (mapModify m a (fun acct =>
          let st := match old with
            | some v => mapInsert acct.storage key v
            | none => mapDelete acct.storage key
          AccountState.updateStorageRoot { acct with storage := st }))
  | .CodeChange a oldCode oldHash =>
      match mapGet m a with
      | none => .error "called unwrap on a None value"
      | some _ => pure (mapModify m a (fun acct =>
          { acct with code := oldCode, codeHash := oldHash }))
  | .AccountCreated a => pure (mapDelete m a)
  | .AccountDeleted a old => pure (mapInsert m a old)

/-- Replay a list of journal entries left to right (`rollback` replays the
journal reversed, so it passes `journal.reverse` here). -/
def replay (m : List (Nat × AccountState)) :
    List JournalEntry → WsRes (List (Nat × AccountState))
  | [] => pure m
  | e :: rest => do
      let m' ← revertEntry m e
      replay m' rest

/-- `WorldStateTrie::rollback`. -/
def rollback (ws : WorldState) : WsRes WorldState :=
  match ws.journal with
  | some j => do
      let m ← replay ws.inner j.reverse
      pure ⟨m, none⟩
  | none => .error "No checkpoint to rollback to"

/-- `WorldStateTrie::commit`; panics when no journal is open. -/
def commit (ws : WorldState) : WsRes WorldState :=
  match ws.journal with
  | some _ => pure { ws with journal := none }
  | none => .error "No checkpoint to commit"

/-- `WorldStateTrie::insert` (public; journals created/overwritten).
`push_journal` leaves `inner` untouched, so inserting into the journaled
state's map is inserting into `ws.inner`. -/
def insert (ws : WorldState) (a : Nat) (acct : AccountState) : WorldState :=
  match mapGet ws.inner a with
  | none =>
      { ws.pushJournal (.AccountCreated a) with
        inner := mapInsert ws.inner a acct }
  | some old =>
      { ws.pushJournal (.AccountDeleted a old) with
        inner := mapInsert ws.inner a acct }

/-- `WorldStateTrie::set_nonce` (panics when the account is absent). -/
def setNonce (ws : WorldState) (a nonce : Nat) : WsRes WorldState :=
  match mapGet ws.inner a with
  | none => .error "called unwrap on a None value"
  | some acct =>
      if acct.nonce ≠ nonce then
        pure { ws.pushJournal (.NonceChange a acct.nonce) with
          inner := mapModify ws.inner a (fun x => { x with nonce := nonce }) }
      else pure ws

/-- `WorldStateTrie::set_balance`. -/
def setBalance (ws : WorldState) (a balance : Nat) : WsRes WorldState :=
  match mapGet ws.inner a with
  | none => .error "called unwrap on a None value"
  | some acct =>
      if acct.balance ≠ balance then
        pure { ws.pushJournal (.BalanceChange a acct.balance) with
          inner := mapModify ws.inner a (fun x => { x with balance := balance }) }
      else pure ws

/-- `WorldStateTrie::set_storage`. -/
def setStorage (ws : WorldState) (a key value : Nat) : WsRes WorldState :=
  match mapGet ws.inner a with
  | none => .error "called unwrap on a None value"
  | some acct =>
      if mapGet acct.storage key ≠ some value then
        pure { ws.pushJournal (.StorageChange a key (mapGet acct.storage key)) with
          inner := mapModify ws.inner a (fun x =>
            AccountState.updateStorageRoot
              { x with storage := mapInsert x.storage key value }) }
      else pure ws

/-- `WorldStateTrie::set_code`. -/
def setCode (ws : WorldState) (a : Nat) (code : List Nat) : WsRes WorldState :=
  match mapGet ws.inner a with
  | none => .error "called unwrap on a None value"
  | some acct =>
      if acct.code ≠ code then
        pure { ws.pushJournal (.CodeChange a acct.code acct.codeHash) with
          inner := mapModify ws.inner a (fun x =>
            AccountState.updateCodeHash { x with code := code }) }
      else pure ws

/-- `WorldStateTrie::delete`. -/
def delete (ws : WorldState) (a : Nat) : WorldState :=
  match mapGet ws.inner a with
  | none => ws
  | some old =>
      { ws.pushJournal (.AccountDeleted a old) with
        inner := mapDelete ws.inner a }

def getAccount (ws : WorldState) (a : Nat) : Option AccountState :=
  mapGet ws.inner a

def getNonce (ws : WorldState) (a : Nat) : Option Nat :=
  (mapGet ws.inner a).map (·.nonce)

def getBalance (ws : WorldState) (a : Nat) : Option Nat :=
  (mapGet ws.inner a).map (·.balance)

def getCode (ws : WorldState) (a : Nat) : Option (List Nat) :=
  (mapGet ws.inner a).map (·.code)

def getStorage (ws : WorldState) (a key : Nat) : Option Nat :=
  (mapGet ws.inner a).bind (fun acct => mapGet acct.storage key)

def accountExists (ws : WorldState) (a : Nat) : Bool :=
  (mapGet ws.inner a).isSome

/-- `WorldStateTrie::root_hash` (the `MockTrie` hash chain). -/
def rootHash (ws : WorldState) : List Nat :=
  mockRootHash stateEncodePair ws.inner

end WorldState

/-- The mutating world-state calls quantified over by the rollback claim. -/
inductive WsOp where
  | setBalance (a v : Nat)
  | setNonce (a v : Nat)
  | setCode (a : Nat) (code : List Nat)
  | setStorage (a k v : Nat)
  | insert (a : Nat) (acct : AccountState)
  | delete (a : Nat)
  deriving DecidableEq

def execOp (ws : WorldState) : WsOp → WsRes WorldState
  | .setBalance a v => ws.setBalance a v
  | .setNonce a v => ws.setNonce a v
  | .setCode a code => ws.setCode a code
  | .setStorage a k v => ws.setStorage a k v
  | .insert a acct => pure (ws.insert a acct)
  | .delete a => pure (ws.delete a)

def execOps (ws : WorldState) : List WsOp → WsRes WorldState
  | [] => pure ws
  | op :: rest => do
      let ws' ← execOp ws op
      execOps ws' rest

/-- An account whose cached `storage_root` really is its storage's root. -/
def storageConsistent (a : AccountState) : Prop :=
  a.storageRoot = mockRootHash storageEncodePair a.storage

/-- Well-formed world state: `BTreeMap` ordering for the account map and all
storage maps, and every cached storage root consistent. -/
def WorldState.WF (ws : WorldState) : Prop :=
  mapSorted ws.inner ∧
  ∀ p ∈ ws.inner, mapSorted p.2.storage ∧ storageConsistent p.2

/-! ### Association-map lemmas -/

section MapLemmas

variable {β : Type}

theorem mapGet_mapModify (m : List (Nat × β)) (a k : Nat) (f : β → β) :
    mapGet (mapModify m a f) k =
      if k = a then (mapGet m a).map f else mapGet m k := by
  induction m with
  | nil => by_cases h : k = a <;> simp [mapGet, mapModify, h]
  | cons p rest ih =>
    obtain ⟨k', v'⟩ := p
    by_cases hak : a = k'
    · subst hak
      by_cases hk : k = a <;> simp [mapGet, mapModify, hk]
    · by_cases hk : k = k'
      · subst hk
        have hka : k ≠ a := fun h => hak h.symm
        simp [mapGet, mapModify, hak, hka]
      · simp [mapGet, mapModify, hak, hk, ih]

theorem mapModify_restore (m : List (Nat × β)) (a : Nat) (f g : β → β)
    (acct : β) (hget : mapGet m a = some acct) (hgf : g (f acct) = acct) :
    mapModify (mapModify m a f) a g = m := by
  induction m with
  | nil => simp [mapGet] at hget
  | cons p rest ih =>
    obtain ⟨k', v'⟩ := p
    by_cases hak : a = k'
    · subst hak
      simp [mapGet] at hget
      subst hget
      simp [mapModify, hgf]
    · have h1 : mapGet rest a = some acct := by
        simpa [mapGet, hak] using hget
      simp [mapModify, hak, ih h1]

theorem mapDelete_sublist (m : List (Nat × β)) (a : Nat) :
    (mapDelete m a).Sublist m := by
  induction m with
  | nil => simp [mapDelete]
  | cons p rest ih =>
    obtain ⟨k', v'⟩ := p
    by_cases hak : a = k'
    · simpa [mapDelete, hak] using List.sublist_cons_self _ _
    · simp only [mapDelete, if_neg hak]
      exact List.Sublist.cons₂ _ ih

theorem mapSorted_mapDelete (m : List (Nat × β)) (a : Nat)
    (hs : mapSorted m) : mapSorted (mapDelete m a) :=
  List.Pairwise.sublist (mapDelete_sublist m a) hs

theorem map_fst_mapModify (m : List (Nat × β)) (a : Nat) (f : β → β) :
    (mapModify m a f).map Prod.fst = m.map Prod.fst := by
  induction m with
  | nil => rfl
  | cons p rest ih =>
    obtain ⟨k', v'⟩ := p
    by_cases hak : a = k' <;> simp [mapModify, hak, ih]

theorem mapSorted_mapModify (m : List (Nat × β)) (a : Nat) (f : β → β)
    (hs : mapSorted m) : mapSorted (mapModify m a f) := by
  have h := map_fst_mapModify m a f
  have hs' : List.Pairwise (· < ·) (m.map Prod.fst) := List.pairwise_map.mpr hs
  rw [← h] at hs'
  exact List.pairwise_map.mp hs'

theorem mem_mapInsert (m : List (Nat × β)) (a : Nat) (v : β) (q : Nat × β)
    (hq : q ∈ mapInsert m a v) : q = (a, v) ∨ q ∈ m := by
  induction m with
  | nil => simpa [mapInsert] using hq
  | cons p rest ih =>
    obtain ⟨k', v'⟩ := p
    by_cases h1 : a < k'
    · simp [mapInsert, h1] at hq
      rcases hq with hq | hq | hq
      · left; simp [hq]
      · right; simp [hq]
      · right; simp [hq]
    · by_cases h2 : a = k'
      · subst h2
        simp [mapInsert, h1] at hq
        rcases hq with hq | hq
        · left; simp [hq]
        · right; simp [hq]
      · simp [mapInsert, h1, h2] at hq
        rcases hq with hq | hq
        · right; simp [hq]
        · rcases ih hq with h | h
          · left; exact h
          · right; simp [h]

theorem mapSorted_mapInsert (m : List (Nat × β)) (a : Nat) (v : β)
    (hs : mapSorted m) : mapSorted (mapInsert m a v) := by
  induction m with
  | nil => simp [mapInsert, mapSorted]
  | cons p rest ih =>
    obtain ⟨k', v'⟩ := p
    obtain ⟨h1, h2⟩ := List.pairwise_cons.mp hs
    by_cases hlt : a < k'
    · rw [mapSorted]
      simp only [mapInsert, if_pos hlt]
      refine List.pairwise_cons.mpr ⟨?_, hs⟩
      intro q hq
      simp only [List.mem_cons] at hq
      rcases hq with hq | hq
      · simp [hq]; omega
      · exact Nat.lt_trans hlt (h1 q hq)
    · by_cases heq : a = k'
      · subst heq
        rw [mapSorted]
        simp only [mapInsert, if_neg hlt, if_pos rfl]
        exact List.pairwise_cons.mpr ⟨h1, h2⟩
      · rw [mapSorted]
        simp only [mapInsert, if_neg hlt, if_neg heq]
        refine List.pairwise_cons.mpr ⟨?_, ih h2⟩
        intro q hq
        rcases mem_mapInsert rest a v q hq with h | h
        · simp [h]; omega
        · exact h1 q h

theorem mapGet_eq_none_of_lt {m : List (Nat × β)} {a : Nat}
    (hlt : ∀ q ∈ m, a < q.1) : mapGet m a = none := by
  induction m with
  | nil => rfl
  | cons p rest ih =>
    have h1 : a < p.1 := hlt p (by simp)
    obtain ⟨k', v'⟩ := p
    have hne : a ≠ k' := Nat.ne_of_lt h1
    simp only [mapGet, if_neg hne]
    exact ih (fun q hq => hlt q (by simp [hq]))

theorem mapDelete_mapInsert (m : List (Nat × β)) (a : Nat) (v : β)
    (hget : mapGet m a = none) :
    mapDelete (mapInsert m a v) a = m := by
  induction m with
  | nil => simp [mapInsert, mapDelete]
  | cons p rest ih =>
    obtain ⟨k', v'⟩ := p
    have hne : a ≠ k' := by
      intro h; subst h; simp [mapGet] at hget
    have hget' : mapGet rest a = none := by simpa [mapGet, hne] using hget
    have hne' : k' ≠ a := fun h => hne h.symm
    by_cases hlt : a < k'
    · simp [mapInsert, hlt, mapDelete]
    · simp [mapInsert, hlt, hne, mapDelete, hne', ih hget']

theorem mapInsert_mapInsert (m : List (Nat × β)) (a : Nat) (v old : β)
    (hs : mapSorted m) (hget : mapGet m a = some old) :
    mapInsert (mapInsert m a v) a old = m := by
  induction m with
  | nil => simp [mapGet] at hget
  | cons p rest ih =>
    obtain ⟨k', v'⟩ := p
    obtain ⟨h1, h2⟩ := List.pairwise_cons.mp hs
    by_cases heq : a = k'
    · subst heq
      simp [mapGet] at hget
      subst hget
      simp [mapInsert]
    · have hget' : mapGet rest a = some old := by
        simpa [mapGet, heq] using hget
      have hnlt : ¬ a < k' := by
        intro hlt
        have : mapGet rest a = none :=
          mapGet_eq_none_of_lt (fun q hq => Nat.lt_trans hlt (h1 q hq))
        rw [this] at hget'
        exact Option.noConfusion hget'
      simp [mapInsert, hnlt, heq, ih h2 hget']

theorem mapInsert_eq_cons (m : List (Nat × β)) (a : Nat) (v : β)
    (h : ∀ q ∈ m, a < q.1) : mapInsert m a v = (a, v) :: m := by
  cases m with
  | nil => rfl
  | cons p rest =>
    have : a < p.1 := h p (by simp)
    obtain ⟨k', v'⟩ := p
    simp [mapInsert, this]

theorem mapInsert_mapDelete (m : List (Nat × β)) (a : Nat) (old : β)
    (hs : mapSorted m) (hget : mapGet m a = some old) :
    mapInsert (mapDelete m a) a old = m := by
  induction m with
  | nil => simp [mapGet] at hget
  | cons p rest ih =>
    obtain ⟨k', v'⟩ := p
    obtain ⟨h1, h2⟩ := List.pairwise_cons.mp hs
    by_cases heq : a = k'
    · subst heq
      simp [mapGet] at hget
      subst hget
      simp only [mapDelete, if_pos rfl]
      exact mapInsert_eq_cons rest a v' h1
    · have hget' : mapGet rest a = some old := by
        simpa [mapGet, heq] using hget
      have hnlt : ¬ a < k' := by
        intro hlt
        have : mapGet rest a = none :=
          mapGet_eq_none_of_lt (fun q hq => Nat.lt_trans hlt (h1 q hq))
        rw [this] at hget'
        exact Option.noConfusion hget'
      have heq' : k' ≠ a := fun h => heq h.symm
      simp [mapDelete, heq, mapInsert, hnlt, heq', ih h2 hget']

end MapLemmas

/-! ### The masking relation: two account maps that agree except at
addresses the journal will later replace wholesale -/

/-- `e` wholesale-replaces (creates or deletes) address `a`, so replaying it
overwrites any earlier difference at `a`. -/
def wholesaleFor (a : Nat) : JournalEntry → Prop
  | .AccountCreated a' => a = a'
  | .AccountDeleted a' _ => a = a'
  | _ => False

def wholesaleIn (a : Nat) (j : List JournalEntry) : Prop :=
  ∃ e ∈ j, wholesaleFor a e

theorem wholesaleIn_append_left {a : Nat} {j j' : List JournalEntry}
    (h : wholesaleIn a j) : wholesaleIn a (j ++ j') := by
  obtain ⟨e, he, hw⟩ := h
  exact ⟨e, List.mem_append_left _ he, hw⟩

theorem wholesaleIn_reverse {a : Nat} {j : List JournalEntry} :
    wholesaleIn a j.reverse ↔ wholesaleIn a j := by
  constructor <;> (intro ⟨e, he, hw⟩; exact ⟨e, by simpa using he, hw⟩)

/-- Pointwise-equal keys, values equal except possibly at addresses in `S`. -/
def mapEquiv (S : Nat → Prop) :
    List (Nat × AccountState) → List (Nat × AccountState) → Prop
  | [], [] => True
  | (k, x) :: m, (k', y) :: m' => k = k' ∧ (S k ∨ x = y) ∧ mapEquiv S m m'
  | _, _ => False

theorem mapEquiv_refl (S : Nat → Prop) (m : List (Nat × AccountState)) :
    mapEquiv S m m := by
  induction m with
  | nil => trivial
  | cons p rest ih => exact ⟨rfl, Or.inr rfl, ih⟩

theorem mapEquiv_congr {S T : Nat → Prop} (hST : ∀ x, S x ↔ T x) :
    ∀ {m m'}, mapEquiv S m m' → mapEquiv T m m' := by
  intro m
  induction m with
  | nil => intro m' h; cases m' with
    | nil => trivial
    | cons q l => exact absurd h (by simp [mapEquiv])
  | cons p rest ih =>
    intro m' h
    cases m' with
    | nil => exact absurd h (by obtain ⟨k, x⟩ := p; simp [mapEquiv])
    | cons q l =>
      obtain ⟨k, x⟩ := p
      obtain ⟨k', y⟩ := q
      obtain ⟨h1, h2, h3⟩ := h
      exact ⟨h1, by rw [← hST]; exact h2, ih h3⟩

theorem mapEquiv_eq {S : Nat → Prop} (hS : ∀ x, ¬ S x) :
    ∀ {m m'}, mapEquiv S m m' → m = m' := by
  intro m
  induction m with
  | nil => intro m' h; cases m' with
    | nil => rfl
    | cons q l => exact absurd h (by simp [mapEquiv])
  | cons p rest ih =>
    intro m' h
    cases m' with
    | nil => exact absurd h (by obtain ⟨k, x⟩ := p; simp [mapEquiv])
    | cons q l =>
      obtain ⟨k, x⟩ := p
      obtain ⟨k', y⟩ := q
      obtain ⟨h1, h2, h3⟩ := h
      rcases h2 with h2 | h2
      · exact absurd h2 (hS k)
      · rw [h1, h2, ih h3]

theorem mapEquiv_keys {S : Nat → Prop} :
    ∀ {m m'}, mapEquiv S m m' → m.map Prod.fst = m'.map Prod.fst := by
  intro m
  induction m with
  | nil => intro m' h; cases m' with
    | nil => rfl
    | cons q l => exact absurd h (by simp [mapEquiv])
  | cons p rest ih =>
    intro m' h
    cases m' with
    | nil => exact absurd h (by obtain ⟨k, x⟩ := p; simp [mapEquiv])
    | cons q l =>
      obtain ⟨k, x⟩ := p
      obtain ⟨k', y⟩ := q
      obtain ⟨h1, h2, h3⟩ := h
      simp [h1, ih h3]

theorem mapEquiv_isSome {S : Nat → Prop} (a : Nat) :
    ∀ {m m'}, mapEquiv S m m' →
      (mapGet m a).isSome = (mapGet m' a).isSome := by
  intro m
  induction m with
  | nil => intro m' h; cases m' with
    | nil => rfl
    | cons q l => exact absurd h (by simp [mapEquiv])
  | cons p rest ih =>
    intro m' h
    cases m' with
    | nil => exact absurd h (by obtain ⟨k, x⟩ := p; simp [mapEquiv])
    | cons q l =>
      obtain ⟨k, x⟩ := p
      obtain ⟨k', y⟩ := q
      obtain ⟨h1, h2, h3⟩ := h
      subst h1
      by_cases hak : a = k
      · simp [mapGet, hak]
      · simp [mapGet, hak, ih h3]

theorem mapEquiv_mapModify {S : Nat → Prop} (a : Nat) (f : AccountState → AccountState) :
    ∀ {m m'}, mapEquiv S m m' →
      mapEquiv S (mapModify m a f) (mapModify m' a f) := by
  intro m
  induction m with
  | nil => intro m' h; cases m' with
    | nil => trivial
    | cons q l => exact absurd h (by simp [mapEquiv])
  | cons p rest ih =>
    intro m' h
    cases m' with
    | nil => exact absurd h (by obtain ⟨k, x⟩ := p; simp [mapEquiv])
    | cons q l =>
      obtain ⟨k, x⟩ := p
      obtain ⟨k', y⟩ := q
      obtain ⟨h1, h2, h3⟩ := h
      subst h1
      by_cases hak : a = k
      · simp only [mapModify, if_pos hak]
        refine ⟨rfl, ?_, h3⟩
        rcases h2 with h2 | h2
        · exact Or.inl h2
        · exact Or.inr (by rw [h2])
      · simp only [mapModify, if_neg hak]
        exact ⟨rfl, h2, ih h3⟩

/-- If no entry of `m` has key `a`, the exception set may drop `a`. -/
theorem mapEquiv_shrink_absent {S : Nat → Prop} (a : Nat) :
    ∀ {m m'}, mapEquiv S m m' → (∀ q ∈ m, q.1 ≠ a) →
      mapEquiv (fun x => S x ∧ x ≠ a) m m' := by
  intro m
  induction m with
  | nil => intro m' h _; cases m' with
    | nil => trivial
    | cons q l => exact absurd h (by simp [mapEquiv])
  | cons p rest ih =>
    intro m' h habs
    cases m' with
    | nil => exact absurd h (by obtain ⟨k, x⟩ := p; simp [mapEquiv])
    | cons q l =>
      obtain ⟨k, x⟩ := p
      obtain ⟨k', y⟩ := q
      obtain ⟨h1, h2, h3⟩ := h
      have hk : k ≠ a := habs (k, x) (by simp)
      refine ⟨h1, ?_, ih h3 (fun q hq => habs q (by simp [hq]))⟩
      rcases h2 with h2 | h2
      · exact Or.inl ⟨h2, hk⟩
      · exact Or.inr h2

theorem mapEquiv_mapInsert_shrink {S : Nat → Prop} (a : Nat) (v : AccountState) :
    ∀ {m m'}, mapEquiv S m m' → mapSorted m →
      mapEquiv (fun x => S x ∧ x ≠ a) (mapInsert m a v) (mapInsert m' a v) := by
  intro m
  induction m with
  | nil => intro m' h _; cases m' with
    | nil => exact ⟨rfl, Or.inr rfl, trivial⟩
    | cons q l => exact absurd h (by simp [mapEquiv])
  | cons p rest ih =>
    intro m' h hs
    cases m' with
    | nil => exact absurd h (by obtain ⟨k, x⟩ := p; simp [mapEquiv])
    | cons q l =>
      obtain ⟨k, x⟩ := p
      obtain ⟨k', y⟩ := q
      obtain ⟨h1, h2, h3⟩ := h
      subst h1
      obtain ⟨hall, hrest⟩ := List.pairwise_cons.mp hs
      by_cases hlt : a < k
      · simp only [mapInsert, if_pos hlt]
        refine ⟨rfl, Or.inr rfl, ?_⟩
        refine mapEquiv_shrink_absent a ⟨rfl, h2, h3⟩ ?_
        intro q hq
        simp only [List.mem_cons] at hq
        rcases hq with hq | hq
        · subst hq; omega
        · have := hall q hq; omega
      · by_cases heq : a = k
        · subst heq
          simp only [mapInsert, if_neg hlt, if_pos rfl]
          refine ⟨rfl, Or.inr rfl, ?_⟩
          exact mapEquiv_shrink_absent a h3
            (fun q hq => by have := hall q hq; omega)
        · simp only [mapInsert, if_neg hlt, if_neg heq]
          refine ⟨rfl, ?_, ih h3 hrest⟩
          rcases h2 with h2 | h2
          · exact Or.inl ⟨h2, fun hk => heq hk.symm⟩
          · exact Or.inr h2

theorem mapEquiv_mapDelete_shrink {S : Nat → Prop} (a : Nat) :
    ∀ {m m'}, mapEquiv S m m' → mapSorted m →
      mapEquiv (fun x => S x ∧ x ≠ a) (mapDelete m a) (mapDelete m' a) := by
  intro m
  induction m with
  | nil => intro m' h _; cases m' with
    | nil => trivial
    | cons q l => exact absurd h (by simp [mapEquiv])
  | cons p rest ih =>
    intro m' h hs
    cases m' with
    | nil => exact absurd h (by obtain ⟨k, x⟩ := p; simp [mapEquiv])
    | cons q l =>
      obtain ⟨k, x⟩ := p
      obtain ⟨k', y⟩ := q
      obtain ⟨h1, h2, h3⟩ := h
      subst h1
      obtain ⟨hall, hrest⟩ := List.pairwise_cons.mp hs
      by_cases heq : a = k
      · subst heq
        simp only [mapDelete, if_pos rfl]
        exact mapEquiv_shrink_absent a h3
          (fun q hq => by have := hall q hq; omega)
      · simp only [mapDelete, if_neg heq]
        refine ⟨rfl, ?_, ih h3 hrest⟩
        rcases h2 with h2 | h2
        · exact Or.inl ⟨h2, fun hk => heq hk.symm⟩
        · exact Or.inr h2

/-- Addresses still excepted after `e` has been replayed. -/
def shrinkS (S : Nat → Prop) (e : JournalEntry) : Nat → Prop :=
  fun x => S x ∧ ¬ wholesaleFor x e

theorem mapGet_none_of_equiv {S : Nat → Prop} {m m' : List (Nat × AccountState)}
    {a : Nat} (heq : mapEquiv S m m') (h : mapGet m a = none) :
    mapGet m' a = none := by
  have := mapEquiv_isSome a heq
  rw [h] at this
  cases hm : mapGet m' a with
  | none => rfl
  | some x => rw [hm] at this; simp at this

theorem mapGet_isSome_of_equiv {S : Nat → Prop} {m m' : List (Nat × AccountState)}
    {a x : Nat × Nat} {acct : AccountState} {k : Nat}
    (heq : mapEquiv S m m') (h : mapGet m k = some acct) :
    ∃ acct', mapGet m' k = some acct' := by
  have := mapEquiv_isSome k heq
  rw [h] at this
  cases hm : mapGet m' k with
  | none => rw [hm] at this; simp at this
  | some y => exact ⟨y, rfl⟩

/-- Replaying one journal entry preserves the masking relation (shrinking
the exception set when the entry replaces an account wholesale). -/
theorem revertEntry_equiv {S : Nat → Prop} (e : JournalEntry)
    {m m' : List (Nat × AccountState)}
    (heq : mapEquiv S m m') (hs : mapSorted m) :
    (WorldState.revertEntry m e = WorldState.revertEntry m' e ∧ ∃ err, WorldState.revertEntry m e = .error err) ∨
    (∃ n n', WorldState.revertEntry m e = .ok n ∧ WorldState.revertEntry m' e = .ok n' ∧
       mapEquiv (shrinkS S e) n n' ∧ mapSorted n) := by
  have hSiff : ∀ (hnw : ∀ x, ¬ wholesaleFor x e), ∀ x, S x ↔ shrinkS S e x :=
    fun hnw x => ⟨fun h => ⟨h, hnw x⟩, fun h => h.1⟩
  cases e with
  | BalanceChange a old =>
      cases hma : mapGet m a with
      | none =>
          have hma' := mapGet_none_of_equiv heq hma
          exact Or.inl ⟨by simp [WorldState.revertEntry, hma, hma'],
            "called unwrap on a None value", by simp [WorldState.revertEntry, hma]⟩
      | some x =>
          obtain ⟨y, hma'⟩ := mapGet_isSome_of_equiv heq hma (a := (0,0)) (x := (0,0))
          refine Or.inr ⟨_, _,
            by simp only [WorldState.revertEntry, hma]; rfl,
            by simp only [WorldState.revertEntry, hma']; rfl, ?_, ?_⟩
          · exact mapEquiv_congr (hSiff (fun x => by simp [wholesaleFor])) (mapEquiv_mapModify a _ heq)
          · exact mapSorted_mapModify _ a _ hs
  | NonceChange a old =>
      cases hma : mapGet m a with
      | none =>
          have hma' := mapGet_none_of_equiv heq hma
          exact Or.inl ⟨by simp [WorldState.revertEntry, hma, hma'],
            "called unwrap on a None value", by simp [WorldState.revertEntry, hma]⟩
      | some x =>
          obtain ⟨y, hma'⟩ := mapGet_isSome_of_equiv heq hma (a := (0,0)) (x := (0,0))
          refine Or.inr ⟨_, _,
            by simp only [WorldState.revertEntry, hma]; rfl,
            by simp only [WorldState.revertEntry, hma']; rfl, ?_, ?_⟩
          · exact mapEquiv_congr (hSiff (fun x => by simp [wholesaleFor])) (mapEquiv_mapModify a _ heq)
          · exact mapSorted_mapModify _ a _ hs
  | StorageChange a key old =>
      cases hma : mapGet m a with
      | none =>
          have hma' := mapGet_none_of_equiv heq hma
          exact Or.inl ⟨by simp [WorldState.revertEntry, hma, hma'],
            "called unwrap on a None value", by simp [WorldState.revertEntry, hma]⟩
      | some x =>
          obtain ⟨y, hma'⟩ := mapGet_isSome_of_equiv heq hma (a := (0,0)) (x := (0,0))
          refine Or.inr ⟨_, _,
            by simp only [WorldState.revertEntry, hma]; rfl,
            by simp only [WorldState.revertEntry, hma']; rfl, ?_, ?_⟩
          · exact mapEquiv_congr (hSiff (fun x => by simp [wholesaleFor])) (mapEquiv_mapModify a _ heq)
          · exact mapSorted_mapModify _ a _ hs
  | CodeChange a oldCode oldHash =>
      cases hma : mapGet m a with
      | none =>
          have hma' := mapGet_none_of_equiv heq hma
          exact Or.inl ⟨by simp [WorldState.revertEntry, hma, hma'],
            "called unwrap on a None value", by simp [WorldState.revertEntry, hma]⟩
      | some x =>
          obtain ⟨y, hma'⟩ := mapGet_isSome_of_equiv heq hma (a := (0,0)) (x := (0,0))
          refine Or.inr ⟨_, _,
            by simp only [WorldState.revertEntry, hma]; rfl,
            by simp only [WorldState.revertEntry, hma']; rfl, ?_, ?_⟩
          · exact mapEquiv_congr (hSiff (fun x => by simp [wholesaleFor])) (mapEquiv_mapModify a _ heq)
          · exact mapSorted_mapModify _ a _ hs
  | AccountCreated a =>
      refine Or.inr ⟨_, _, rfl, rfl, ?_, mapSorted_mapDelete m a hs⟩
      exact mapEquiv_congr
        (fun x => Iff.of_eq (by simp [shrinkS, wholesaleFor]))
        (mapEquiv_mapDelete_shrink a heq hs)
  | AccountDeleted a old =>
      refine Or.inr ⟨_, _, rfl, rfl, ?_, mapSorted_mapInsert m a old hs⟩
      exact mapEquiv_congr
        (fun x => Iff.of_eq (by simp [shrinkS, wholesaleFor]))
        (mapEquiv_mapInsert_shrink a old heq hs)

/-- The masking lemma: replaying a journal erases every difference that the
journal itself replaces wholesale. -/
theorem replay_equiv :
    ∀ (j : List JournalEntry) (S : Nat → Prop)
      {m m' : List (Nat × AccountState)},
      mapEquiv S m m' → mapSorted m → (∀ a, S a → wholesaleIn a j) →
      WorldState.replay m j = WorldState.replay m' j := by
  intro j
  induction j with
  | nil =>
      intro S m m' heq _ hw
      have : m = m' := mapEquiv_eq
        (fun x hx => by
          have := hw x hx
          simp [wholesaleIn] at this) heq
      rw [this]
  | cons e rest ih =>
      intro S m m' heq hs hw
      rcases revertEntry_equiv e heq hs with ⟨hEq, err, hErr⟩ |
        ⟨n, n', hn, hn', heq', hs'⟩
      · have hErr' : WorldState.revertEntry m' e = .error err := hEq ▸ hErr
        simp [WorldState.replay, hErr, hErr']
      · simp only [WorldState.replay, hn, hn']
        have hw' : ∀ a, shrinkS S e a → wholesaleIn a rest := by
          intro a ⟨hSa, hnw⟩
          obtain ⟨e', he', hwf⟩ := hw a hSa
          simp only [List.mem_cons] at he'
          rcases he' with he' | he'
          · subst he'; exact absurd hwf hnw
          · exact ⟨e', he', hwf⟩
        simpa using ih (shrinkS S e) heq' hs' hw'

/-! ### The forward journal invariant -/

theorem mapGet_mem {β : Type} : ∀ {m : List (Nat × β)} {a : Nat} {v : β},
    mapGet m a = some v → (a, v) ∈ m := by
  intro m
  induction m with
  | nil => intro a v h; simp [mapGet] at h
  | cons p rest ih =>
    intro a v h
    obtain ⟨k', v'⟩ := p
    by_cases hak : a = k'
    · subst hak
      simp [mapGet] at h
      simp [h]
    · simp [mapGet, hak] at h
      simp [ih h]

theorem mem_mapModify {β : Type} :
    ∀ {m : List (Nat × β)} {a : Nat} {f : β → β} {p : Nat × β},
    p ∈ mapModify m a f → p ∈ m ∨ (p.1 = a ∧ ∃ x, (a, x) ∈ m ∧ p.2 = f x) := by
  intro m
  induction m with
  | nil => intro a f p h; simp [mapModify] at h
  | cons q rest ih =>
    intro a f p h
    obtain ⟨k', v'⟩ := q
    by_cases hak : a = k'
    · subst hak
      simp [mapModify] at h
      rcases h with h | h
      · right
        refine ⟨by simp [h], v', by simp, by simp [h]⟩
      · left; simp [h]
    · simp [mapModify, hak] at h
      rcases h with h | h
      · left; simp [h]
      · rcases ih h with h' | ⟨h1, x, h2, h3⟩
        · left; simp [h']
        · right; exact ⟨h1, x, by simp [h2], h3⟩

theorem mem_mapDelete {β : Type} {m : List (Nat × β)} {a : Nat} {p : Nat × β}
    (h : p ∈ mapDelete m a) : p ∈ m :=
  (mapDelete_sublist m a).mem h

theorem mapModify_mapModify {β : Type} :
    ∀ (m : List (Nat × β)) (a : Nat) (f g : β → β),
    mapModify (mapModify m a f) a g = mapModify m a (g ∘ f) := by
  intro m
  induction m with
  | nil => intro a f g; rfl
  | cons q rest ih =>
    intro a f g
    obtain ⟨k', v'⟩ := q
    by_cases hak : a = k' <;> simp [mapModify, hak, ih]

theorem mapEquiv_mapModify_left (a : Nat) (h : AccountState → AccountState) :
    ∀ (m : List (Nat × AccountState)),
      mapEquiv (fun x => x = a) (mapModify m a h) m := by
  intro m
  induction m with
  | nil => trivial
  | cons q rest ih =>
    obtain ⟨k', v'⟩ := q
    by_cases hak : a = k'
    · subst hak
      simp only [mapModify, if_pos rfl]
      exact ⟨rfl, Or.inl rfl, mapEquiv_refl _ _⟩
    · simp only [mapModify, if_neg hak]
      exact ⟨rfl, Or.inr rfl, ih⟩

/-- An account whose storage map is sorted and whose cached root is real. -/
def goodAcct (a : AccountState) : Prop :=
  mapSorted a.storage ∧ storageConsistent a

/-- The invariant carried from `checkpoint` through every mutating call:
the journal replays (in reverse) to the checkpoint state `base`, the account
map stays sorted, and any account whose storage bookkeeping is unreliable
was created or overwritten during the journal (so its differences are
masked by a wholesale entry). -/
def JInv (base : List (Nat × AccountState)) (ws : WorldState) : Prop :=
  ∃ j, ws.journal = some j ∧
    WorldState.replay ws.inner j.reverse = .ok base ∧
    mapSorted ws.inner ∧
    ∀ p ∈ ws.inner, goodAcct p.2 ∨ wholesaleIn p.1 j

theorem replay_snoc (inner' : List (Nat × AccountState))
    (j : List JournalEntry) (e : JournalEntry) :
    WorldState.replay inner' (j ++ [e]).reverse =
      (WorldState.revertEntry inner' e).bind
        (fun n => WorldState.replay n j.reverse) := by
  rw [List.reverse_append, List.reverse_singleton, List.singleton_append,
    WorldState.replay]
  cases WorldState.revertEntry inner' e <;> rfl

theorem mem_after_modify {ws : WorldState}
    {j : List JournalEntry} {a : Nat} {f : AccountState → AccountState}
    (e : JournalEntry)
    (hmem : ∀ p ∈ ws.inner, goodAcct p.2 ∨ wholesaleIn p.1 j)
    (hgood : ∀ x, goodAcct x → goodAcct (f x)) :
    ∀ p ∈ mapModify ws.inner a f, goodAcct p.2 ∨ wholesaleIn p.1 (j ++ [e]) := by
  intro p hp
  rcases mem_mapModify hp with h | ⟨h1, x, h2, h3⟩
  · rcases hmem p h with hg | hw
    · exact Or.inl hg
    · exact Or.inr (wholesaleIn_append_left hw)
  · rcases hmem (a, x) h2 with hg | hw
    · exact Or.inl (h3 ▸ hgood x hg)
    · exact Or.inr (h1 ▸ wholesaleIn_append_left hw)

/-- Every mutating call preserves the journal invariant. -/
theorem execOp_JInv {base : List (Nat × AccountState)} {ws ws' : WorldState}
    (op : WsOp) (hInv : JInv base ws) (hop : execOp ws op = .ok ws') :
    JInv base ws' := by
  obtain ⟨j, hj, hrep, hsort, hmem⟩ := hInv
  cases op with
  | setBalance a v =>
      simp only [execOp, WorldState.setBalance] at hop
      split at hop
      · exact absurd hop (by simp)
      · rename_i acct hget
        split at hop
        · rename_i hch
          simp only [pure, Except.pure, Except.ok.injEq] at hop
          subst hop
          refine ⟨j ++ [.BalanceChange a acct.balance], ?_, ?_, ?_, ?_⟩
          · simp [WorldState.pushJournal, hj]
          · rw [replay_snoc]
            have hrev : WorldState.revertEntry
                (mapModify ws.inner a (fun x => { x with balance := v }))
                (.BalanceChange a acct.balance) = .ok ws.inner := by
              simp only [WorldState.revertEntry, mapGet_mapModify,
                eq_self_iff_true, if_true, hget, Option.map_some]
              rw [mapModify_restore ws.inner a _ _ acct hget rfl]
              rfl
            rw [hrev]
            exact hrep
          · exact mapSorted_mapModify _ a _ hsort
          · exact mem_after_modify _ hmem (fun x hx => hx)
        · simp only [pure, Except.pure, Except.ok.injEq] at hop
          exact hop ▸ ⟨j, hj, hrep, hsort, hmem⟩
  | setNonce a v =>
      simp only [execOp, WorldState.setNonce] at hop
      split at hop
      · exact absurd hop (by simp)
      · rename_i acct hget
        split at hop
        · rename_i hch
          simp only [pure, Except.pure, Except.ok.injEq] at hop
          subst hop
          refine ⟨j ++ [.NonceChange a acct.nonce], ?_, ?_, ?_, ?_⟩
          · simp [WorldState.pushJournal, hj]
          · rw [replay_snoc]
            have hrev : WorldState.revertEntry
                (mapModify ws.inner a (fun x => { x with nonce := v }))
                (.NonceChange a acct.nonce) = .ok ws.inner := by
              simp only [WorldState.revertEntry, mapGet_mapModify,
                eq_self_iff_true, if_true, hget, Option.map_some]
              rw [mapModify_restore ws.inner a _ _ acct hget rfl]
              rfl
            rw [hrev]
            exact hrep
          · exact mapSorted_mapModify _ a _ hsort
          · exact mem_after_modify _ hmem (fun x hx => hx)
        · simp only [pure, Except.pure, Except.ok.injEq] at hop
          exact hop ▸ ⟨j, hj, hrep, hsort, hmem⟩
  | setCode a code =>
      simp only [execOp, WorldState.setCode] at hop
      split at hop
      · exact absurd hop (by simp)
      · rename_i acct hget
        split at hop
        · rename_i hch
          simp only [pure, Except.pure, Except.ok.injEq] at hop
          subst hop
          refine ⟨j ++ [.CodeChange a acct.code acct.codeHash], ?_, ?_, ?_, ?_⟩
          · simp [WorldState.pushJournal, hj]
          · rw [replay_snoc]
            have hrev : WorldState.revertEntry
                (mapModify ws.inner a
                  (fun x => AccountState.updateCodeHash { x with code := code }))
                (.CodeChange a acct.code acct.codeHash) = .ok ws.inner := by
              simp only [WorldState.revertEntry, mapGet_mapModify,
                eq_self_iff_true, if_true, hget, Option.map_some]
              rw [mapModify_restore ws.inner a _ _ acct hget rfl]
              rfl
            rw [hrev]
            exact hrep
          · exact mapSorted_mapModify _ a _ hsort
          · refine mem_after_modify _ hmem ?_
            intro x hx
            exact hx
        · simp only [pure, Except.pure, Except.ok.injEq] at hop
          exact hop ▸ ⟨j, hj, hrep, hsort, hmem⟩
  | setStorage a k v =>
      simp only [execOp, WorldState.setStorage] at hop
      split at hop
      · exact absurd hop (by simp)
      · rename_i acct hget
        split at hop
        · rename_i hch
          simp only [pure, Except.pure, Except.ok.injEq] at hop
          subst hop
          refine ⟨j ++ [.StorageChange a k (mapGet acct.storage k)], ?_, ?_,
            mapSorted_mapModify _ a _ hsort, ?_⟩
          · simp [WorldState.pushJournal, hj]
          · rw [replay_snoc]
            have hrev : WorldState.revertEntry
                (mapModify ws.inner a (fun x =>
                  AccountState.updateStorageRoot
                    { x with storage := mapInsert x.storage k v }))
                (.StorageChange a k (mapGet acct.storage k)) =
                .ok (mapModify
                  (mapModify ws.inner a (fun x =>
                    AccountState.updateStorageRoot
                      { x with storage := mapInsert x.storage k v }))
                  a (fun x =>
                    AccountState.updateStorageRoot
                      { x with storage :=
                          match mapGet acct.storage k with
                          | some v0 => mapInsert x.storage k v0
                          | none => mapDelete x.storage k })) := by
              simp only [WorldState.revertEntry, mapGet_mapModify,
                eq_self_iff_true, if_true, hget, Option.map_some]
              cases mapGet acct.storage k <;> rfl
            rw [hrev]
            simp only [Except.bind]
            rcases hmem (a, acct) (mapGet_mem hget) with hgood | hw
            · have hrestore :
                  (fun x => AccountState.updateStorageRoot
                    { x with storage :=
                        match mapGet acct.storage k with
                        | some v0 => mapInsert x.storage k v0
                        | none => mapDelete x.storage k })
                  ((fun x => AccountState.updateStorageRoot
                    { x with storage := mapInsert x.storage k v }) acct) = acct := by
                obtain ⟨hst, hcons⟩ := hgood
                cases hcv : mapGet acct.storage k with
                | some v0 =>
                    simp only [AccountState.updateStorageRoot]
                    rw [mapInsert_mapInsert acct.storage k v v0 hst hcv, ← hcons]
                | none =>
                    simp only [AccountState.updateStorageRoot]
                    rw [mapDelete_mapInsert acct.storage k v hcv, ← hcons]
              rw [mapModify_restore ws.inner a _ _ acct hget hrestore]
              exact hrep
            · rw [mapModify_mapModify]
              rw [replay_equiv j.reverse (fun x => x = a)
                (mapEquiv_mapModify_left a _ ws.inner)
                (mapSorted_mapModify ws.inner a _ hsort)
                (fun x hx => hx ▸ wholesaleIn_reverse.mpr hw)]
              exact hrep
          · refine mem_after_modify _ hmem ?_
            intro x hx
            obtain ⟨hst, _⟩ := hx
            exact ⟨mapSorted_mapInsert _ k v hst, rfl⟩
        · simp only [pure, Except.pure, Except.ok.injEq] at hop
          exact hop ▸ ⟨j, hj, hrep, hsort, hmem⟩
  | insert a acct =>
      simp only [execOp, WorldState.insert, pure, Except.pure,
        Except.ok.injEq] at hop
      split at hop <;> rename_i hget <;> subst hop
      · refine ⟨j ++ [.AccountCreated a], ?_, ?_,
          mapSorted_mapInsert _ a _ hsort, ?_⟩
        · simp [WorldState.pushJournal, hj]
        · rw [replay_snoc]
          have hrev : WorldState.revertEntry (mapInsert ws.inner a acct)
              (.AccountCreated a) = .ok ws.inner := by
            simp only [WorldState.revertEntry]
            rw [mapDelete_mapInsert ws.inner a acct hget]
            rfl
          rw [hrev]
          exact hrep
        · intro p hp
          rcases mem_mapInsert _ a acct p hp with h | h
          · exact Or.inr (h ▸ ⟨.AccountCreated a, by simp, by simp [wholesaleFor]⟩)
          · rcases hmem p h with hg | hw
            · exact Or.inl hg
            · exact Or.inr (wholesaleIn_append_left hw)
      · rename_i old
        refine ⟨j ++ [.AccountDeleted a old], ?_, ?_,
          mapSorted_mapInsert _ a _ hsort, ?_⟩
        · simp [WorldState.pushJournal, hj]
        · rw [replay_snoc]
          have hrev : WorldState.revertEntry (mapInsert ws.inner a acct)
              (.AccountDeleted a old) = .ok ws.inner := by
            simp only [WorldState.revertEntry]
            rw [mapInsert_mapInsert ws.inner a acct old hsort hget]
            rfl
          rw [hrev]
          exact hrep
        · intro p hp
          rcases mem_mapInsert _ a acct p hp with h | h
          · exact Or.inr
              (h ▸ ⟨.AccountDeleted a old, by simp, by simp [wholesaleFor]⟩)
          · rcases hmem p h with hg | hw
            · exact Or.inl hg
            · exact Or.inr (wholesaleIn_append_left hw)
  | delete a =>
      simp only [execOp, WorldState.delete, pure, Except.pure,
        Except.ok.injEq] at hop
      split at hop <;> rename_i hget <;> subst hop
      · exact ⟨j, hj, hrep, hsort, hmem⟩
      · rename_i old
        refine ⟨j ++ [.AccountDeleted a old], ?_, ?_,
          mapSorted_mapDelete _ a hsort, ?_⟩
        · simp [WorldState.pushJournal, hj]
        · rw [replay_snoc]
          have hrev : WorldState.revertEntry (mapDelete ws.inner a)
              (.AccountDeleted a old) = .ok ws.inner := by
            simp only [WorldState.revertEntry]
            rw [mapInsert_mapDelete ws.inner a old hsort hget]
            rfl
          rw [hrev]
          exact hrep
        · intro p hp
          rcases hmem p (mem_mapDelete hp) with hg | hw
          · exact Or.inl hg
          · exact Or.inr (wholesaleIn_append_left hw)

theorem execOps_JInv {base : List (Nat × AccountState)} :
    ∀ (ops : List WsOp) {ws ws' : WorldState},
      JInv base ws → execOps ws ops = .ok ws' → JInv base ws' := by
  intro ops
  induction ops with
  | nil =>
      intro ws ws' hInv hex
      simp only [execOps, pure, Except.pure, Except.ok.injEq] at hex
      exact hex ▸ hInv
  | cons op rest ih =>
      intro ws ws' hInv hex
      simp only [execOps] at hex
      cases hop : execOp ws op with
      | error e => rw [hop] at hex; exact Except.noConfusion hex
      | ok ws1 =>
          rw [hop] at hex
          exact ih (execOp_JInv op hInv hop) hex

/-! ### Concrete world states for the rollback claim -/

/-- A fresh externally-owned account with a *consistent* cached storage
root (unlike `AccountState::new`, which leaves it all-zero). -/
def consistentAcct : AccountState :=
  { nonce := 0, balance := 5, storageRoot := mockRootHash storageEncodePair [],
    codeHash := keccak256 [], code := [], storage := [] }

def c1wWs : WorldState := ⟨[(17, consistentAcct)], none⟩

def c1wWs1 : WorldState := ⟨[(17, consistentAcct)], some []⟩

def c1wWs2 : WorldState :=
  ⟨[(17, { consistentAcct with balance := 7 })],
   some [.BalanceChange 17 5]⟩

/-- The world state of the counterexample: one account built by
`AccountState::new(&[])`, whose `storage_root` is the all-zero hash. -/
def c1cWs : WorldState := ⟨[(17, AccountState.new [])], none⟩

def c1cWs1 : WorldState := ⟨[(17, AccountState.new [])], some []⟩

def c1cWs2 : WorldState :=
  ⟨[(17, AccountState.updateStorageRoot
      { AccountState.new [] with storage := [(1, 1)] })],
   some [.StorageChange 17 1 none]⟩

def c1cWs3 : WorldState :=
  ⟨[(17, AccountState.updateStorageRoot (AccountState.new []))], none⟩

/-! ## `fake_exponential` (`layer1/block.rs`) -/

def U256MOD : Nat := 2 ^ 256

/-- `ethereum_types::U256` arithmetic panics on overflow. -/
def chkU256 (n : Nat) : Except String Nat :=
  if n < U256MOD then .ok n else .error "arithmetic operation overflow"

/-- The `while numerator_accum > 0` loop of `fake_exponential`, fuel-driven.
State: `(i, output, numerator_accum)`. -/
def fakeExponentialLoop :
    Nat → Nat → Nat → Nat → Nat → Nat → Except String Nat
  | 0, _, _, _, _, _ => .error "out of fuel"
  | fuel + 1, numerator, denominator, i, output, accum =>
      if accum > 0 then do
        let output ← chkU256 (output + accum)
        let prod ← chkU256 (accum * numerator)
        let di ← chkU256 (denominator * i)
        if di = 0 then .error "division by zero" else do
        let i ← chkU256 (i + 1)
        fakeExponentialLoop fuel numerator denominator i output (prod / di)
      else pure output

/-- `fake_exponential` from `layer1/block.rs`.  The final line of the Rust
source is `output // denominator`, in which `// denominator` is a line
comment, so the function returns the undivided `output`. -/
def fake_exponential (fuel factor numerator denominator : Nat) :
    Except String Nat := do
  let accum ← chkU256 (factor * denominator)
  fakeExponentialLoop fuel numerator denominator 1 0 accum

/-! ## Transactions (`layer1/transaction.rs`) -/

/-- `AccessListItem`. -/
structure AccessItem where
  address : Nat
  storageKeys : List Nat
  deriving DecidableEq

/-- `Either<U256, (U256, U256)>`: `gas_price` for type-1 or
`(max_priority_fee_per_gas, max_fee_per_gas)` for type-2. -/
inductive GasFee where
  | gasPrice (g : Nat)
  | dynamicFee (maxPriority maxFee : Nat)
  deriving DecidableEq

/-- `Transaction1or2` (`to` is renamed `toAddr`: `to` is a reserved token
here). -/
structure Tx where
  txType : Nat
  nonce : Nat
  gasLimit : Nat
  toAddr : Option Nat
  value : Nat
  r : Nat
  s : Nat
  data : List Nat
  v : Nat
  chainId : Nat
  gasPriceOrDynamicFee : GasFee
  accessList : List AccessItem
  deriving DecidableEq

/-- `Transaction1or2::is_creation`. -/
def Tx.isCreation (tx : Tx) : Bool := tx.toAddr.isNone

/-- `Transaction1or2::effective_gas_price` (the `U256` addition panics on
overflow). -/
def Tx.effectiveGasPrice (tx : Tx) (baseFee : Nat) : Except String Nat :=
  let pf : Nat × Nat :=
    match tx.gasPriceOrDynamicFee with
    | .gasPrice g => (g, g)
    | .dynamicFee p f => (p, f)
  match chkU256 (pf.1 + baseFee) with
  | .error e => .error e
  | .ok s => .ok (min s pf.2)

/-! ## Receipts, logs, bloom (`layer1/receipts.rs`) -/

structure Log where
  address : Nat
  topics : List Nat
  data : List Nat
  deriving DecidableEq

structure Receipt where
  txType : Nat
  statusCode : Nat
  cumulativeGasUsed : Nat
  logsBloom : List Nat
  logs : List Log
  deriving DecidableEq

/-- Set the three bloom bits of one hashed item. -/
def bloomAdd (bloom : List Nat) (bytes : List Nat) : List Nat :=
  let hash := keccak256 bytes
  [0, 2, 4].foldl (fun bl i =>
    let bitIndex := (((hash.getD i 0) <<< 8) ||| hash.getD (i + 1) 0) % 2048
    let byteIndex := 255 - bitIndex / 8
    let bitInByte := bitIndex % 8
    bl.set byteIndex ((bl.getD byteIndex 0) ||| (1 <<< bitInByte))) bloom

/-- `bloom_filter` from `layer1/receipts.rs` (2048-bit, big-endian). -/
def bloom_filter (logs : List Log) : List Nat :=
  logs.foldl (fun bloom log =>
    (natBEFixed 20 log.address :: log.topics.map (natBEFixed 32)).foldl
      bloomAdd bloom)
    (List.replicate 256 0)

/-! ## Block header and block (`layer1/block.rs`, crates version; the
`src/src` VM is written against this header/receipts layout) -/

structure Withdrawal where
  globalIndex : Nat
  validatorIndex : Nat
  recipient : Nat
  amount : Nat
  deriving DecidableEq

/-- The 19-field Cancun `BlockHeader`. -/
structure BlockHeader where
  parent_hash : Nat
  ommers_hash : Nat
  beneficiary : Nat
  state_root : Nat
  transactions_root : Nat
  receipts_root : Nat
  logs_bloom : List Nat
  difficulty : Nat
  number : Nat
  gas_limit : Nat
  gas_used : Nat
  timestamp : Nat
  extra_data : List Nat
  prev_randao : Nat
  nonce : Nat
  base_fee : Nat
  withdrawals_root : Nat
  excess_blob_gas : Nat
  blob_gas_used : Nat
  deriving DecidableEq

structure Block where
  header : BlockHeader
  transactions : List Tx
  receipts : List Receipt
  withdrawals : List Withdrawal
  deriving DecidableEq

/-! ## The VM host (`layer1/vm.rs`, `layer1/operations.rs`) -/

inductive EvmError where
  | stackUnderflow | stackOverflow | invalidOpcode | outOfGas
  | callDepthExceeded | insufficientBalance | memoryOutOfBounds
  | executionFailed
  deriving DecidableEq

/-- `Machine`.  The stack is top-first (`Vec::push`/`pop` act on the end). -/
structure Machine where
  memory : List Nat
  stack : List Nat
  pc : Nat
  gasRemaining : Nat
  callDepth : Nat
  deriving DecidableEq

/-- `Context` (the `block` reference is omitted: no operation in the jump
table reads it). -/
structure Context where
  contractAddr : Option Nat
  originSender : Nat
  gasPrice : Nat
  input : List Nat
  sender : Nat
  value : Nat
  code : List Nat
  depth : Nat
  allowWrites : Bool

structure Substate where
  selfDestruct : List Nat
  logs : List Log
  touchedAccounts : List Nat
  refundFee : Nat
  accessListAccounts : List Nat
  accessListStorage : List (Nat × Nat)
  deriving DecidableEq

/-- `Machine::stack_pop`. -/
def Machine.stackPop (m : Machine) : Except EvmError (Nat × Machine) :=
  match m.stack with
  | [] => .error .stackUnderflow
  | t :: rest => .ok (t, { m with stack := rest })

/-- `Machine::stack_push`. -/
def Machine.stackPush (m : Machine) (val : Nat) : Except EvmError Machine :=
  if m.stack.length ≥ 1024 then .error .stackOverflow
  else .ok { m with stack := val :: m.stack }

/-- `to_word_size` from `layer1/vm.rs`. -/
def to_word_size (size : Nat) : Nat :=
  if size % 32 = 0 then size / 32 else size / 32 + 1

/-- `intrinsic_gas` from `layer1/vm.rs` (u64 arithmetic; overflow is
unreachable for any representable calldata). -/
def intrinsic_gas (tx : Tx) : Nat :=
  let gas := if tx.isCreation then 53000 else 21000
  let zeros := (tx.data.filter (fun b => b = 0)).length
  let nonZeros := tx.data.length - zeros
  let gas := gas + (nonZeros * 16 + zeros * 4)
  let gas := gas + (if tx.isCreation then 2 * to_word_size tx.data.length else 0)
  let accessListGas := tx.accessList.length * 2400
  let storageKeyGas :=
    (tx.accessList.map (fun item => item.storageKeys.length * 1900)).sum
  gas + accessListGas + storageKeyGas

/-- `check_valid_transaction` from `layer1/vm.rs`.  `tx.get_sender()` —
secp256k1 recovery, not embeddable — is abstracted as the `senderRes`
argument; every other step follows the source order. -/
def check_valid_transaction (senderRes : Except String Nat) (tx : Tx)
    (state : WorldState) (block : Block) : Except String Unit :=
  match senderRes with
  | .error e => .error e
  | .ok sender =>
    match state.getNonce sender with
    | none => .error "sender not found"
    | some stNonce =>
      if stNonce ≠ tx.nonce then .error "nonce mismatch"
      else
        match state.getCode sender with
        | none => .error "called unwrap on a None value"
        | some code =>
          if code.isEmpty = false then .error "sender is a EOA"
          else if tx.gasLimit < intrinsic_gas tx then .error "gas limit too low"
          else
            match tx.effectiveGasPrice block.header.base_fee with
            | .error e => .error e
            | .ok egp =>
              match chkU256 (egp * tx.gasLimit) with
              | .error e => .error e
              | .ok upfront1 =>
                match chkU256 (upfront1 + tx.value) with
                | .error e => .error e
                | .ok upfront =>
                  match state.getBalance sender with
                  | none => .error "called unwrap on a None value"
                  | some bal =>
                    if bal < upfront then .error "insufficient balance"
                    else
                      match
                        (if tx.txType = 2 then
                          match tx.gasPriceOrDynamicFee with
                          | .gasPrice _ =>
                              .error "called right() on a Left value"
                          | .dynamicFee maxPri maxFee =>
                              if maxFee < maxPri then
                                .error "max fee per gas less than max priority fee"
                              else if maxFee < block.header.base_fee then
                                .error "max fee per gas too low"
                              else .ok ()
                        else (.ok () : Except String Unit)) with
                      | .error e => .error e
                      | .ok _ =>
                        if tx.isCreation ∧ tx.data.length > 49152 then
                          .error "data length too long"
                        else if block.header.gas_used ≤ block.header.gas_limit
                          then
                            if tx.gasLimit >
                               block.header.gas_limit - block.header.gas_used
                            then .error "gas limit exceeds block gas limit"
                            else .ok ()
                        else .error "arithmetic operation underflow"

/-- One entry of `JUMP_TABLE`; `execute` is dispatched by `OpId`, and
`dynamic_gas`/`memory_size` are `None` for every registered operation. -/
inductive OpId where
  | add | call | create
  deriving DecidableEq

structure Operation where
  opcode : Nat
  execute : OpId
  constantGas : Nat
  dynamicGas : Option Unit
  minStack : Nat
  maxStack : Nat
  memorySize : Option Unit

/-- The `JUMP_TABLE` from `layer1/operations.rs`: ADD, CALL, CREATE only
(no STOP entry). -/
def JUMP_TABLE (opcode : Nat) : Option Operation :=
  if opcode = 0x01 then some ⟨0x01, .add, 3, none, 2, 1024, none⟩
  else if opcode = 0xF1 then some ⟨0xF1, .call, 100, none, 7, 1024, none⟩
  else if opcode = 0xF0 then some ⟨0xF0, .create, 32000, none, 3, 1024, none⟩
  else none

/-- Big-endian bytes to `Nat` (`U256::from_big_endian` /
`Address::from_slice`). -/
def beToNat (bs : List Nat) : Nat := bs.foldl (fun a b => a * 256 + b) 0

/-- NIST SHA3-256 (`sha3::Sha3_256`, used by the `Sha256Hash` precompile):
same sponge as Keccak-256 with domain byte `0x06`. -/
def sha3Pad (bs : List Nat) : List Nat :=
  let q := 136 - bs.length % 136
  if q = 1 then bs ++ [0x86]
  else bs ++ [0x06] ++ List.replicate (q - 2) 0 ++ [0x80]

def sha3_256 (bs : List Nat) : List Nat :=
  let blocks := toBlocks 136 (sha3Pad bs)
  let final := blocks.foldl (fun st blk => keccakF (absorbBlock st blk))
    (List.replicate 25 0)
  ((List.range 4).map (fun j => natBEFixed 8 (final.getD j 0) |>.reverse)).flatten

/-- `is_precompile`: addresses 0x01..0x09. -/
def is_precompile (addr : Nat) : Bool := 1 ≤ addr ∧ addr ≤ 9

/-- `gas_cost` of the Berlin precompiles (0 for the unimplemented ones). -/
def precompileGasCost (addr : Nat) (input : List Nat) : Nat :=
  if addr = 1 then 3000
  else if addr = 2 then 60 + ((input.length + 31) / 32) * 12
  else if addr = 4 then 15 + ((input.length + 31) / 32) * 3
  else 0

/-- `execute` of the Berlin precompiles. -/
def precompileExecute (addr : Nat) (input : List Nat) :
    Except EvmError (Option (List Nat)) :=
  if addr = 1 then .ok (some (List.replicate 32 0))
  else if addr = 2 then .ok (some (sha3_256 input))
  else if addr = 4 then .ok (some input)
  else .error .executionFailed

end Mylayer2

namespace Mylayer2

/-- The panic-or-EVM-error result of running one frame: a `String` is a
Rust panic, the `EvmError` component is the `Err` the loop exited with
(the loop in `Machine::run` has no `Ok` exit). -/
abbrev RunRes := Except String (Machine × WorldState × Substate × Option EvmError)

mutual

/-- `Machine::run` from `layer1/vm.rs`, fuel-driven. -/
def vmRun : Nat → Machine → Context → WorldState → Substate → RunRes
  | 0, _, _, _, _ => .error "out of fuel"
  | fuel + 1, m, ctx, ws, ss =>
    let opcode := if m.pc ≥ ctx.code.length then 0x00 else ctx.code.getD m.pc 0
    match JUMP_TABLE opcode with
    | none => .ok (m, ws, ss, some .invalidOpcode)
    | some op =>
      if m.stack.length < op.minStack then .ok (m, ws, ss, some .stackUnderflow)
      else if m.stack.length > op.maxStack then
        .ok (m, ws, ss, some .stackOverflow)
      else if op.constantGas > m.gasRemaining then
        .ok (m, ws, ss, some .outOfGas)
      else
        let m := { m with gasRemaining := m.gasRemaining - op.constantGas }
        match execOpcode fuel op.execute m ctx ws ss with
        | .error e => .error e
        | .ok (.error evmErr, m', ws', ss') => .ok (m', ws', ss', some evmErr)
        | .ok (.ok _, m', ws', ss') =>
            vmRun fuel { m' with pc := m'.pc + 1 } ctx ws' ss'

/-- The `execute` functions of the jump table (`op_add`, `op_call`,
`op_create`).  The outer `Except String` is a Rust panic; the inner
`Except EvmError` is the operation's `Result<(), EvmError>`.  Offsets are
unbounded `Nat`s, so the `U256::as_usize` cast panic is not modelled. -/
def execOpcode (fuel : Nat) :
    OpId → Machine → Context → WorldState → Substate →
    Except String (Except EvmError Unit × Machine × WorldState × Substate)
  | .add, m, _, ws, ss =>
      (match m.stackPop with
      | .error e => .ok (.error e, m, ws, ss)
      | .ok (a, m1) =>
        match m1.stackPop with
        | .error e => .ok (.error e, m1, ws, ss)
        | .ok (b, m2) =>
          match m2.stackPush ((a + b) % U256MOD) with
          | .error e => .ok (.error e, m2, ws, ss)
          | .ok m3 => .ok (.ok (), m3, ws, ss))
  | .call, m, _, ws, ss =>
      -- `op_call`: after the gas and callee pops the code runs
      -- `bytes[20 - callee_bytes.len()..]`; the value-returning
      -- `U256::to_big_endian` is 32 bytes, so `20 - 32` underflows and
      -- panics before the remaining five pops.
      (match m.stackPop with
      | .error e => .ok (.error e, m, ws, ss)
      | .ok (_, m1) =>
        match m1.stackPop with
        | .error e => .ok (.error e, m1, ws, ss)
        | .ok (_, _) => .error "attempt to subtract with overflow")
  | .create, m, ctx, ws, ss =>
      (match m.stackPop with
      | .error e => .ok (.error e, m, ws, ss)
      | .ok (value, m1) =>
        match m1.stackPop with
        | .error e => .ok (.error e, m1, ws, ss)
        | .ok (offset, m2) =>
          match m2.stackPop with
          | .error e => .ok (.error e, m2, ws, ss)
          | .ok (size, m3) =>
            let caller := ctx.contractAddr.getD ctx.sender
            if m3.callDepth ≥ 1024 then
              .ok (.error .callDepthExceeded, m3, ws, ss)
            else if value > ((ws.getBalance caller).getD 0) then
              .ok (.error .insufficientBalance, m3, ws, ss)
            else if offset + size > m3.memory.length then
              .ok (.error .memoryOutOfBounds, m3, ws, ss)
            else
              let initCode := (m3.memory.drop offset).take size
              let nonce := (ws.getNonce caller).getD 0
              let hash := keccak256 (natBEFixed 20 caller ++ natBEFixed 8 nonce)
              let contractAddr := beToNat (hash.drop 12)
              let ws1 := ws.insert contractAddr (AccountState.new initCode)
              match ws1.setNonce caller (nonce + 1) with
              | .error e => .error e
              | .ok ws2 =>
                match
                  (if value > 0 then
                    let callerBal := (ws2.getBalance caller).getD 0
                    let contractBal := (ws2.getBalance contractAddr).getD 0
                    if value ≤ callerBal then
                      match ws2.setBalance caller (callerBal - value) with
                      | .error e => .error e
                      | .ok ws3 =>
                        match chkU256 (contractBal + value) with
                        | .error e => .error e
                        | .ok nb => ws3.setBalance contractAddr nb
                    else .error "arithmetic operation underflow"
                  else (pure ws2 : WsRes WorldState)) with
                | .error e => .error e
                | .ok ws4 =>
                  match ws4.setCode contractAddr initCode with
                  | .error e => .error e
                  | .ok ws5 =>
                    match m3.stackPush contractAddr with
                    | .error e => .ok (.error e, m3, ws5, ss)
                    | .ok m4 => .ok (.ok (), m4, ws5, ss))

end

/-- The early-return test at the top of `tx_execute`:
`tx.value == 0 && !tx.is_creation() && !state.account_exists(&tx.to.unwrap())`
(the `unwrap` is reached only when `is_creation()` is false, i.e. `to` is
`Some`). -/
def txEarlyStop (tx : Tx) (state : WorldState) : Bool :=
  tx.value = 0 && !tx.isCreation &&
    (match tx.toAddr with
     | some t => !state.accountExists t
     | none => false)

/-- The `touched_accounts` pruning loop at the end of `tx_execute`; the
`unwrap`s cannot fire because of the `account_exists` guard, but they are
modelled. -/
def pruneTouched (state : WorldState) : List Nat → Except String WorldState
  | [] => pure state
  | addr :: rest =>
    if state.accountExists addr = false then pruneTouched state rest
    else
      match state.getBalance addr, state.getNonce addr, state.getCode addr with
      | some bal, some nonce, some code =>
        if bal = 0 ∧ nonce = 0 ∧ code.isEmpty then
          pruneTouched (state.delete addr) rest
        else pruneTouched state rest
      | _, _, _ => .error "called unwrap on a None value"

/-- `tx_execute` from `layer1/vm.rs`.  `tx.get_sender()` is abstracted as
`senderRes`; `effective_gas_price`, recomputed three times in the source with
the same arguments, is computed once; `bloom_logs` resolves to
`bloom_filter` from `layer1/receipts.rs`.  Every `U256` overflow/underflow
panic and every `unwrap` is an `Except.error`. -/
def tx_execute (fuel : Nat) (senderRes : Except String Nat) (tx : Tx)
    (state : WorldState) (block : Block) : Except String (WorldState × Block) :=
  match check_valid_transaction senderRes tx state block with
  | .error e => .error e
  | .ok _ =>
    if txEarlyStop tx state then .ok (state, block)
    else
      match senderRes with
      | .error e => .error e
      | .ok sender =>
        match state.setNonce sender (tx.nonce + 1) with
        | .error e => .error e
        | .ok state1 =>
          match tx.effectiveGasPrice block.header.base_fee with
          | .error e => .error e
          | .ok egp =>
            match chkU256 (tx.gasLimit * egp) with
            | .error e => .error e
            | .ok cost =>
              match state1.getBalance sender with
              | none => .error "called unwrap on a None value"
              | some bal =>
                if cost ≤ bal then
                  match state1.setBalance sender (bal - cost) with
                  | .error e => .error e
                  | .ok state2 =>
                    match state2.checkpoint with
                    | .error e => .error e
                    | .ok state3 =>
                      match vmRun fuel
                          { memory := [], stack := [], pc := 0,
                            gasRemaining := tx.gasLimit, callDepth := 0 }
                          { contractAddr := tx.toAddr, originSender := sender,
                            gasPrice := egp, input := tx.data, sender := sender,
                            value := tx.value,
                            code :=
                              match tx.toAddr with
                              | some t => (state3.getCode t).getD []
                              | none => [],
                            depth := 0, allowWrites := true }
                          state3
                          { selfDestruct := [], logs := [], touchedAccounts := [],
                            refundFee := 0, accessListAccounts := [],
                            accessListStorage := [] } with
                      | .error e => .error e
                      | .ok (evm1, state4, ss1, outcome) =>
                        match chkU256 (evm1.gasRemaining * egp) with
                        | .error e => .error e
                        | .ok refund0 =>
                          match chkU256 (refund0 + ss1.refundFee) with
                          | .error e => .error e
                          | .ok refund1 =>
                            match state4.getBalance sender with
                            | none => .error "called unwrap on a None value"
                            | some bal2 =>
                              match chkU256 (bal2 +
                                  (if refund1 > tx.gasLimit then tx.gasLimit
                                   else refund1)) with
                              | .error e => .error e
                              | .ok nb =>
                                match state4.setBalance sender nb with
                                | .error e => .error e
                                | .ok state5 =>
                                  match pruneTouched
                                      (ss1.selfDestruct.foldl
                                        (fun s a => s.delete a) state5)
                                      ss1.touchedAccounts with
                                  | .error e => .error e
                                  | .ok state7 =>
                                    if evm1.gasRemaining ≤ tx.gasLimit then
                                      .ok (state7,
                                        { block with receipts :=
                                            block.receipts ++
                                            [{ txType := tx.txType,
                                               statusCode :=
                                                 if outcome.isNone then 1 else 0,
                                               cumulativeGasUsed :=
                                                 tx.gasLimit - evm1.gasRemaining,
                                               logsBloom := bloom_filter ss1.logs,
                                               logs := ss1.logs }] })
                                    else .error "arithmetic operation underflow"
                else .error "arithmetic operation underflow"

end Mylayer2

namespace Mylayer2

/-! ## Claim theorems -/

/-- **C1** (amended): for every well-formed world state — every account's
cached `storage_root` equal to its storage trie's root hash, maps in
`BTreeMap` order — and every sequence of mutating calls drawn from
{set_balance, set_nonce, set_code, set_storage, insert, delete} performed
between a `checkpoint` and a `rollback`, `world_state.root_hash()` after the
rollback equals the root hash immediately before the checkpoint. -/
theorem C1_rollback_restores_root (ws ws1 ws2 ws3 : WorldState)
    (ops : List WsOp) (hwf : ws.WF)
    (h1 : ws.checkpoint = .ok ws1)
    (h2 : execOps ws1 ops = .ok ws2)
    (h3 : ws2.rollback = .ok ws3) :
    ws3.rootHash = ws.rootHash := by
  obtain ⟨hsort, hacct⟩ := hwf
  unfold WorldState.checkpoint at h1
  split at h1
  · exact Except.noConfusion h1
  · simp only [pure, Except.pure, Except.ok.injEq] at h1
    subst h1
    have hInv1 : JInv ws.inner ⟨ws.inner, some []⟩ :=
      ⟨[], rfl, rfl, hsort, fun p hp => Or.inl (hacct p hp)⟩
    obtain ⟨j, hj, hrep, _, _⟩ := execOps_JInv ops hInv1 h2
    simp only [WorldState.rollback, hj, hrep] at h3
    simp only [Except.bind, pure, Except.pure, Except.ok.injEq] at h3
    have h3' : ({ inner := ws.inner, journal := none } : WorldState) = ws3 :=
      Except.ok.inj h3
    rw [← h3']
    rfl

/-- Witness for C1: one consistent account, a balance change between
checkpoint and rollback. -/
theorem C1_rollback_restores_root_witness :
    c1wWs.WF ∧ c1wWs.checkpoint = .ok c1wWs1 ∧
    execOps c1wWs1 [.setBalance 17 7] = .ok c1wWs2 ∧
    c1wWs2.rollback = .ok c1wWs ∧
    c1wWs.rootHash = c1wWs.rootHash := by
  have hwf : c1wWs.WF := by
    refine ⟨?_, ?_⟩
    · simp [c1wWs, mapSorted]
    · intro p hp
      simp only [c1wWs, List.mem_singleton] at hp
      subst hp
      exact ⟨by simp [consistentAcct, mapSorted], rfl⟩
  exact ⟨hwf, rfl, rfl, rfl,
    C1_rollback_restores_root c1wWs c1wWs1 c1wWs2 c1wWs [.setBalance 17 7]
      hwf rfl rfl rfl⟩

/-- **C1** (counterexample to the claim as stated): on an account created by
`AccountState::new` — cached `storage_root` all-zero, never derived — a
single `set_storage` between checkpoint and rollback changes the root hash:
the rollback re-derives `storage_root` as the real (empty-storage) root,
which differs from the stale zero value recorded before the checkpoint. -/
theorem C1_counterexample :
    c1cWs.checkpoint = .ok c1cWs1 ∧
    execOps c1cWs1 [.setStorage 17 1 1] = .ok c1cWs2 ∧
    c1cWs2.rollback = .ok c1cWs3 ∧
    c1cWs3.rootHash ≠ c1cWs.rootHash := by
  refine ⟨rfl, rfl, rfl, by decide⟩

/-- **C2**: the claim states that inserting a fresh key and then deleting it
restores the pre-insert root hash.  On the trie `{"do" ↦ "verb"}`, inserting
`"dog" ↦ "puppy"` and deleting `"dog"` instead yields the single leaf
`"do" ↦ ""` — the branch-collapse in `_delete_at` builds
`LeafNode { key_nibbles: vec![], value: vec![] }`, dropping the branch's
value — so the root hash differs from the pre-insert root. -/
theorem C2_insert_delete_root_not_restored :
    (((ModifiedTrie.new.insert [0x64, 0x6f] [0x76, 0x65, 0x72, 0x62]).insert
        [0x64, 0x6f, 0x67] [0x70, 0x75, 0x70, 0x70, 0x79]).delete
        [0x64, 0x6f, 0x67]) = .ok ⟨some (.Leaf [6, 4, 6, 0xf] [])⟩ ∧
    (ModifiedTrie.rootHash ⟨some (.Leaf [6, 4, 6, 0xf] [])⟩ ≠
      (ModifiedTrie.new.insert [0x64, 0x6f] [0x76, 0x65, 0x72, 0x62]).rootHash) := by
  refine ⟨rfl, by decide⟩

/-- **C3**: the claim states `fake_exponential` returns `output div den`,
with `fake_exponential(1, 3338477, 3338477) = 2`.  The code's last line is
`output // denominator` — a comment in Rust, not a floor division, though the
source's own Python reference comment reads `return output // denominator` —
so the function returns the undivided Taylor sum: `9074916` (whose quotient
by the denominator is the claimed `2`), and `fake_exponential(1, 0, 3338477)`
returns `3338477`, not the claimed `0`. -/
theorem C3_fake_exponential_missing_division :
    fake_exponential 20 1 3338477 3338477 = .ok 9074916 ∧
    (9074916 : Nat) / 3338477 = 2 ∧
    fake_exponential 20 1 0 3338477 = .ok 3338477 := by
  refine ⟨rfl, by decide, rfl⟩

/-- **C7**: the claim states that when a branch with a value loses its last
child, it collapses into a zero-key leaf *carrying the branch's value*.  The
source builds `LeafNode { key_nibbles: vec![], value: vec![] }`: deleting the
only child (key nibbles `[6,7]`) of a branch holding value `[1,2,3]` yields
the leaf with the *empty* value, not `[1,2,3]`. -/
theorem C7_branch_collapse_drops_value :
    deleteAt 5 (.Branch (emptyChildren.set 6 (some (.Leaf [7] [9])))
        (some [1, 2, 3])) [6, 7] = .ok (some (.Leaf [] [])) ∧
    ([] : List Nat) ≠ [1, 2, 3] := by
  refine ⟨rfl, by decide⟩

/-! ### Concrete fixtures for the transaction-lifecycle claims -/

/-- A flat header: `base_fee = 1`, room for any gas limit. -/
def blk0 : Block :=
  { header :=
      { parent_hash := 0, ommers_hash := 0, beneficiary := 9, state_root := 0,
        transactions_root := 0, receipts_root := 0, logs_bloom := [],
        difficulty := 0, number := 0, gas_limit := 30000000, gas_used := 0,
        timestamp := 0, extra_data := [], prev_randao := 0, nonce := 0,
        base_fee := 1, withdrawals_root := 0, excess_blob_gas := 0,
        blob_gas_used := 0 },
    transactions := [], receipts := [], withdrawals := [] }

/-- An externally-owned account as the code builds them (all-zero storage
root and code hash, like `AccountState::default`). -/
def eoa (nonce bal : Nat) : AccountState :=
  { nonce := nonce, balance := bal, storageRoot := natBEFixed 32 0,
    codeHash := natBEFixed 32 0, code := [], storage := [] }

/-- Type-1 value-0 transfer to the absent address `3`, sender `1`. -/
def txC5 : Tx :=
  { txType := 1, nonce := 0, gasLimit := 21000, toAddr := some 3, value := 0,
    r := 0, s := 0, data := [], v := 0, chainId := 1,
    gasPriceOrDynamicFee := .gasPrice 10, accessList := [] }

def stC5 : WorldState := ⟨[(1, eoa 0 (10 ^ 18))], none⟩

/-! ### Arithmetic shape of `intrinsic_gas` -/

theorem to_word_size_eq (n : Nat) : to_word_size n = (n + 31) / 32 := by
  unfold to_word_size; split <;> omega

theorem length_filter_add (l : List Nat) :
    (l.filter (fun b => b = 0)).length +
      (l.filter (fun b => b ≠ 0)).length = l.length := by
  induction l with
  | nil => simp
  | cons a t ih =>
    simp only [ne_eq, decide_not] at ih ⊢
    by_cases h : a = 0 <;> simp [List.filter_cons, h] <;> omega

theorem sum_map_mul_1900 (l : List AccessItem) :
    (l.map (fun i => i.storageKeys.length * 1900)).sum =
      1900 * (l.map (fun i => i.storageKeys.length)).sum := by
  induction l with
  | nil => simp
  | cons a t ih => simp [ih]; ring

/-- **C9**: `intrinsic_gas` is 21000 (call) / 53000 (creation), plus 4 per
zero data byte and 16 per non-zero data byte, plus for creation 2 per
32-byte word of data, plus 2400 per access-list address and 1900 per
access-list storage key; and `check_valid_transaction` never accepts a
transaction whose `gas_limit` is below that. -/
theorem C9_intrinsic_gas_and_preflight (tx : Tx) (senderRes : Except String Nat)
    (state : WorldState) (block : Block) :
    intrinsic_gas tx =
        (if tx.isCreation then 53000 else 21000)
          + 4 * (tx.data.filter (fun b => b = 0)).length
          + 16 * (tx.data.filter (fun b => b ≠ 0)).length
          + (if tx.isCreation then 2 * ((tx.data.length + 31) / 32) else 0)
          + 2400 * tx.accessList.length
          + 1900 * (tx.accessList.map (fun i => i.storageKeys.length)).sum
      ∧ (tx.gasLimit < intrinsic_gas tx →
          check_valid_transaction senderRes tx state block ≠ .ok ()) := by
  constructor
  · have key := length_filter_add tx.data
    unfold intrinsic_gas
    rw [to_word_size_eq, sum_map_mul_1900]
    simp only [ne_eq, decide_not] at key ⊢
    cases h : tx.isCreation <;> simp [h] <;> omega
  · intro h hok
    unfold check_valid_transaction at hok
    repeat' split at hok
    all_goals first
      | exact Except.noConfusion hok
      | omega

/-- Witness for C9: a transaction with two data bytes (one zero), one
access-list item with two storage keys, and `gas_limit = 0` is rejected. -/
theorem C9_intrinsic_gas_witness :
    check_valid_transaction (.ok 1)
        { txType := 1, nonce := 0, gasLimit := 0, toAddr := some 2, value := 0,
          r := 0, s := 0, data := [0, 7], v := 0, chainId := 1,
          gasPriceOrDynamicFee := .gasPrice 1,
          accessList := [⟨5, [1, 2]⟩] } WorldState.new blk0 ≠ .ok () :=
  (C9_intrinsic_gas_and_preflight _ (.ok 1) WorldState.new blk0).2 (by decide)

/-- **C5** (counterexample to the claim as stated): on the value-0 transfer
`txC5` to the absent address `3` from sender `1` (nonce 0, ample balance),
`tx_execute` succeeds but returns the world state *completely unchanged*:
the sender's nonce stays 0 — the claim says it becomes `tx.nonce + 1 = 1` —
and no gas is deducted. -/
theorem C5_counterexample :
    tx_execute 1 (.ok 1) txC5 stC5 blk0 = .ok (stC5, blk0) ∧
    stC5.getNonce 1 = some 0 ∧ stC5.getBalance 1 = some (10 ^ 18) :=
  ⟨rfl, rfl, rfl⟩

/-- **C5** (amended): a valid transaction with value 0 and a `to` address at
which no account exists makes `tx_execute` return at the early-exit branch,
leaving the world state (and the block) *entirely unchanged*: the sender's
nonce is not incremented, no gas is deducted, and no account is created at
`to`. -/
theorem C5_early_return (fuel : Nat) (senderRes : Except String Nat) (tx : Tx)
    (state : WorldState) (block : Block) (t : Nat)
    (hv : tx.value = 0) (ht : tx.toAddr = some t)
    (hex : state.accountExists t = false)
    (hvalid : check_valid_transaction senderRes tx state block = .ok ()) :
    tx_execute fuel senderRes tx state block = .ok (state, block) := by
  have hstop : txEarlyStop tx state = true := by
    simp [txEarlyStop, Tx.isCreation, ht, hv, hex]
  simp [tx_execute, hvalid, hstop]

/-- Witness for C5 (on a distinct transaction, `gas_limit = 25000`). -/
theorem C5_early_return_witness :
    tx_execute 7 (.ok 1) { txC5 with gasLimit := 25000 } stC5 blk0 =
      .ok (stC5, blk0) :=
  C5_early_return 7 (.ok 1) { txC5 with gasLimit := 25000 } stC5 blk0 3
    rfl rfl (by decide) (by rfl)

/-! ### The first `run` step and the journal through `tx_execute` -/

theorem JUMP_TABLE_minStack (o : Nat) (op : Operation)
    (h : JUMP_TABLE o = some op) : 2 ≤ op.minStack := by
  unfold JUMP_TABLE at h
  repeat' split at h
  all_goals first
    | (cases h; decide)
    | exact Option.noConfusion h

/-- From an empty stack, the very first iteration of `Machine::run` exits
with an `EvmError` — the table has no zero-`min_stack` operation (and no
STOP) — leaving the machine, world state and substate untouched. -/
theorem vmRun_empty_stack (fuel : Nat) (m : Machine) (ctx : Context)
    (ws : WorldState) (ss : Substate) (hs : m.stack = []) :
    ∃ e, vmRun (fuel + 1) m ctx ws ss = .ok (m, ws, ss, some e) := by
  rcases hJT : JUMP_TABLE (if ctx.code.length ≤ m.pc then 0x00
      else (ctx.code[m.pc]?).getD 0) with _ | op
  · exact ⟨.invalidOpcode, by simp [vmRun, hJT]⟩
  · have h2 := JUMP_TABLE_minStack _ _ hJT
    have h0 : m.stack.length < op.minStack := by rw [hs]; simp; omega
    exact ⟨.stackUnderflow, by simp [vmRun, hJT, h0]⟩

theorem vmRun_empty_stack_ok (fuel : Nat) (m m' : Machine) (ctx : Context)
    (ws ws' : WorldState) (ss ss' : Substate) (o : Option EvmError)
    (hs : m.stack = [])
    (hok : vmRun fuel m ctx ws ss = .ok (m', ws', ss', o)) :
    m' = m ∧ ws' = ws ∧ ss' = ss := by
  cases fuel with
  | zero => exact Except.noConfusion hok
  | succ k =>
    obtain ⟨e, he⟩ := vmRun_empty_stack k m ctx ws ss hs
    rw [he] at hok
    have h := Except.ok.inj hok
    simp only [Prod.mk.injEq] at h
    exact ⟨h.1.symm, h.2.1.symm, h.2.2.1.symm⟩

theorem chkU256_ok (n m : Nat) (h : chkU256 n = .ok m) : m = n := by
  unfold chkU256 at h
  split at h
  · exact (Except.ok.inj h).symm
  · exact Except.noConfusion h

theorem checkpoint_ok (ws ws' : WorldState) (h : ws.checkpoint = .ok ws') :
    ws'.journal = some [] := by
  unfold WorldState.checkpoint at h
  split at h
  · exact Except.noConfusion h
  · cases Except.ok.inj h; rfl

theorem pushJournal_isSome (ws : WorldState) (e : JournalEntry) :
    (ws.pushJournal e).journal.isSome = ws.journal.isSome := by
  cases hj : ws.journal <;> simp [WorldState.pushJournal, hj]

theorem setNonce_journal (ws ws' : WorldState) (a n : Nat)
    (h : ws.setNonce a n = .ok ws') :
    ws'.journal.isSome = ws.journal.isSome := by
  unfold WorldState.setNonce at h
  split at h
  · exact Except.noConfusion h
  · split at h <;> cases Except.ok.inj h
    · exact pushJournal_isSome ws _
    · rfl

theorem setBalance_journal (ws ws' : WorldState) (a v : Nat)
    (h : ws.setBalance a v = .ok ws') :
    ws'.journal.isSome = ws.journal.isSome := by
  unfold WorldState.setBalance at h
  split at h
  · exact Except.noConfusion h
  · split at h <;> cases Except.ok.inj h
    · exact pushJournal_isSome ws _
    · rfl

theorem setNonce_spec (ws : WorldState) (a n : Nat)
    (h : (mapGet ws.inner a).isSome = true) :
    ∃ ws', ws.setNonce a n = .ok ws' ∧
      ws'.journal.isSome = ws.journal.isSome ∧
      ∀ b, ws'.getBalance b = ws.getBalance b := by
  cases hg : mapGet ws.inner a with
  | none => rw [hg] at h; exact absurd h (by simp)
  | some acct =>
    by_cases hn : acct.nonce ≠ n
    · refine ⟨{ ws.pushJournal (.NonceChange a acct.nonce) with
          inner := mapModify ws.inner a (fun x => { x with nonce := n }) },
        ?_, pushJournal_isSome ws _, fun b => ?_⟩
      · unfold WorldState.setNonce; rw [hg]; simp [hn]; rfl
      · show (mapGet (mapModify ws.inner a _) b).map _ = _
        rw [mapGet_mapModify]
        by_cases hb : b = a <;> simp [hb, hg, WorldState.getBalance]
    · exact ⟨ws, by unfold WorldState.setNonce; rw [hg]; simp [hn]; rfl,
        rfl, fun _ => rfl⟩

theorem setBalance_spec (ws : WorldState) (a v : Nat)
    (h : (mapGet ws.inner a).isSome = true) :
    ∃ ws', ws.setBalance a v = .ok ws' ∧
      ws'.journal.isSome = ws.journal.isSome := by
  cases hg : mapGet ws.inner a with
  | none => rw [hg] at h; exact absurd h (by simp)
  | some acct =>
    by_cases hb : acct.balance ≠ v
    · exact ⟨{ ws.pushJournal (.BalanceChange a acct.balance) with
          inner := mapModify ws.inner a (fun x => { x with balance := v }) },
        by unfold WorldState.setBalance; rw [hg]; simp [hb]; rfl,
        pushJournal_isSome ws _⟩
    · exact ⟨ws, by unfold WorldState.setBalance; rw [hg]; simp [hb]; rfl, rfl⟩

/-- What a successful `check_valid_transaction` pins down: the recovered
sender, its account, a computed effective gas price, the overflow-free
upfront gas cost, and a balance covering it. -/
theorem check_valid_ok_facts (senderRes : Except String Nat) (tx : Tx)
    (state : WorldState) (block : Block)
    (h : check_valid_transaction senderRes tx state block = .ok ()) :
    ∃ sender egp up1 bal, senderRes = .ok sender ∧
      (mapGet state.inner sender).isSome = true ∧
      tx.effectiveGasPrice block.header.base_fee = .ok egp ∧
      chkU256 (egp * tx.gasLimit) = .ok up1 ∧
      state.getBalance sender = some bal ∧ up1 ≤ bal := by
  unfold check_valid_transaction at h
  split at h
  · exact Except.noConfusion h
  rename_i sender
  have hs : (Except.ok sender : Except String Nat) = .ok sender := rfl
  split at h
  · exact Except.noConfusion h
  rename_i stNonce hnonce
  split at h
  · exact Except.noConfusion h
  split at h
  · exact Except.noConfusion h
  rename_i code hcode
  split at h
  · exact Except.noConfusion h
  split at h
  · exact Except.noConfusion h
  split at h
  · exact Except.noConfusion h
  rename_i egp hegp
  split at h
  · exact Except.noConfusion h
  rename_i up1 hup1
  split at h
  · exact Except.noConfusion h
  rename_i up hup
  split at h
  · exact Except.noConfusion h
  rename_i bal hbal
  split at h
  · exact Except.noConfusion h
  rename_i hlt
  have hup' := chkU256_ok _ _ hup
  have hsome : (mapGet state.inner sender).isSome = true := by
    unfold WorldState.getNonce at hnonce
    obtain ⟨acct, hacct, -⟩ := Option.map_eq_some'.mp hnonce
    simp [hacct]
  exact ⟨sender, egp, up1, bal, hs, hsome, hegp, hup1, hbal, by omega⟩

/-- Past the early return, a successful `tx_execute` always hands back a
world state whose journal is still open: the `checkpoint()` at the start of
execution is never committed or rolled back on the success path. -/
theorem tx_execute_ok_journal (fuel : Nat) (senderRes : Except String Nat)
    (tx : Tx) (state : WorldState) (block : Block) (s' : WorldState)
    (b' : Block)
    (hok : tx_execute fuel senderRes tx state block = .ok (s', b'))
    (hearly : txEarlyStop tx state = false) :
    s'.journal.isSome = true := by
  unfold tx_execute at hok
  split at hok
  · exact Except.noConfusion hok
  split at hok
  · rename_i hstop
    rw [hearly] at hstop
    exact Bool.noConfusion hstop
  split at hok
  · exact Except.noConfusion hok
  rename_i sender
  split at hok
  · exact Except.noConfusion hok
  rename_i state1 hsn
  split at hok
  · exact Except.noConfusion hok
  rename_i egp hegp
  split at hok
  · exact Except.noConfusion hok
  rename_i cost hcost
  split at hok
  · exact Except.noConfusion hok
  rename_i bal hbal
  split at hok
  case isFalse => exact Except.noConfusion hok
  split at hok
  · exact Except.noConfusion hok
  rename_i state2 hsb
  split at hok
  · exact Except.noConfusion hok
  rename_i state3 hcp
  split at hok
  · exact Except.noConfusion hok
  rename_i evm1 state4 ss1 outcome hvm
  obtain ⟨hm, hw, hss⟩ := vmRun_empty_stack_ok fuel _ _ _ _ _ _ _ _ rfl hvm
  subst hm
  subst hss
  split at hok
  · exact Except.noConfusion hok
  rename_i refund0 hr0
  split at hok
  · exact Except.noConfusion hok
  rename_i refund1 hr1
  split at hok
  · exact Except.noConfusion hok
  rename_i bal2 hbal2
  split at hok
  · exact Except.noConfusion hok
  rename_i nb hnb
  split at hok
  · exact Except.noConfusion hok
  rename_i state5 hsb2
  split at hok
  · exact Except.noConfusion hok
  rename_i state7 hpt
  simp only [pruneTouched, List.foldl_nil] at hpt
  split at hok
  case isFalse => exact Except.noConfusion hok
  have hs7 : state7 = state5 := (Except.ok.inj hpt).symm
  have hpair := Except.ok.inj hok
  have hs' : s' = state7 := by
    have h1 := congrArg Prod.fst hpair
    simpa using h1.symm
  have j3 : state3.journal = some [] := checkpoint_ok _ _ hcp
  have j5 := setBalance_journal _ _ _ _ hsb2
  rw [hs', hs7, j5, hw, j3]
  rfl

/-- On a world state whose journal is already open, any `tx_execute` that
passes validation and the early return dies in `checkpoint()` with
`"Checkpoint already exists"`. -/
theorem tx_execute_journal_open (fuel : Nat) (senderRes : Except String Nat)
    (tx : Tx) (s : WorldState) (blk : Block)
    (hj : s.journal.isSome = true)
    (hvalid : check_valid_transaction senderRes tx s blk = .ok ())
    (hearly : txEarlyStop tx s = false) :
    tx_execute fuel senderRes tx s blk = .error "Checkpoint already exists" := by
  obtain ⟨sender, egp, up1, bal, hs, hsome, hegp, hup1, hbal, hle⟩ :=
    check_valid_ok_facts senderRes tx s blk hvalid
  subst hs
  obtain ⟨state1, hsn, hj1, hb1⟩ := setNonce_spec s sender (tx.nonce + 1) hsome
  have hcost : chkU256 (tx.gasLimit * egp) = .ok up1 := by
    rw [Nat.mul_comm]; exact hup1
  have hbal1 : state1.getBalance sender = some bal := by rw [hb1]; exact hbal
  have hsome1 : (mapGet state1.inner sender).isSome = true := by
    unfold WorldState.getBalance at hbal1
    obtain ⟨acct, hacct, -⟩ := Option.map_eq_some'.mp hbal1
    simp [hacct]
  obtain ⟨state2, hsb, hj2⟩ := setBalance_spec state1 sender (bal - up1) hsome1
  have hj2' : state2.journal.isSome = true := by rw [hj2, hj1, hj]
  have hcp : state2.checkpoint = .error "Checkpoint already exists" := by
    unfold WorldState.checkpoint
    simp [hj2']
  unfold tx_execute
  rw [hvalid]
  simp only [hearly, Bool.false_eq_true, if_false, hsn, hegp, hcost, hbal1,
    hle, ite_true, hsb, hcp]

/-- Type-1 transfer from sender `1` to the existing account `2`. -/
def txC10 : Tx :=
  { txType := 1, nonce := 0, gasLimit := 21000, toAddr := some 2, value := 0,
    r := 0, s := 0, data := [], v := 0, chainId := 1,
    gasPriceOrDynamicFee := .gasPrice 10, accessList := [] }

/-- The same transfer with the follow-up nonce. -/
def txC10b : Tx := { txC10 with nonce := 1 }

def stC10 : WorldState := ⟨[(1, eoa 0 (10 ^ 18)), (2, eoa 0 5)], none⟩

/-- The world state `tx_execute` hands back on the `txC10` run. -/
def stC10' : WorldState :=
  match tx_execute 1 (.ok 1) txC10 stC10 blk0 with
  | .ok (s, _) => s
  | .error _ => WorldState.new

/-- The block `tx_execute` hands back on the `txC10` run. -/
def blkC10' : Block :=
  match tx_execute 1 (.ok 1) txC10 stC10 blk0 with
  | .ok (_, b) => b
  | .error _ => blk0

/-- **C10**: whenever `tx_execute` proceeds past validation and past the
zero-value-to-nonexistent-address early return, the checkpoint it opens is
never committed or rolled back: the journal is still open in the returned
world state, and a second such `tx_execute` call on that state (one passing
validation and the early return) panics inside `checkpoint` with
`"Checkpoint already exists"`. -/
theorem C10_checkpoint_left_open
    (fuel fuel2 : Nat) (senderRes senderRes2 : Except String Nat)
    (tx tx2 : Tx) (state : WorldState) (block block2 : Block)
    (s' : WorldState) (b' : Block)
    (hrun : tx_execute fuel senderRes tx state block = .ok (s', b'))
    (hearly : txEarlyStop tx state = false) :
    s'.journal.isSome = true ∧
    (check_valid_transaction senderRes2 tx2 s' block2 = .ok () →
     txEarlyStop tx2 s' = false →
     tx_execute fuel2 senderRes2 tx2 s' block2 =
       .error "Checkpoint already exists") := by
  have h1 := tx_execute_ok_journal fuel senderRes tx state block s' b'
    hrun hearly
  exact ⟨h1, fun hv he =>
    tx_execute_journal_open fuel2 senderRes2 tx2 s' block2 h1 hv he⟩

/-- Witness for C10: after a transfer from `1` to the existing account `2`,
the returned state's journal is open and replaying the follow-up
transaction dies in `checkpoint`. -/
theorem C10_checkpoint_left_open_witness :
    tx_execute 1 (.ok 1) txC10 stC10 blk0 = .ok (stC10', blkC10') ∧
    stC10'.journal.isSome = true ∧
    tx_execute 1 (.ok 1) txC10b stC10' blk0 =
      .error "Checkpoint already exists" := by
  have h1 : tx_execute 1 (.ok 1) txC10 stC10 blk0 = .ok (stC10', blkC10') := rfl
  have h2 := C10_checkpoint_left_open 1 1 (.ok 1) (.ok 1) txC10 txC10b stC10
    blk0 blk0 stC10' blkC10' h1 (by decide)
  exact ⟨h1, h2.1, h2.2 (by rfl) (by decide)⟩

/-- `stC10` plus the block beneficiary (address 9) holding balance 77. -/
def stC4 : WorldState :=
  ⟨[(1, eoa 0 (10 ^ 18)), (2, eoa 0 5), (9, eoa 0 77)], none⟩

/-- **C4**: the claim says the sender refund is
`remaining_gas * effective_gas_price` plus the substate refund counter
capped at `gas_used / 5`, and that the beneficiary is credited
`(effective_gas_price - base_fee) * gas_used`.  On a plain transfer
(`gas_limit = 21000`, `effective_gas_price = 10`, all gas unused, empty
refund counter) that refund is `21000 * 10 + 0 = 210000`; the code instead
caps the *whole* refund at `gas_limit` (`vm.rs:255-257`), crediting only
`21000`, and the beneficiary credit is a bare `// todo` (`vm.rs:260`), so
account 9's balance stays 77. -/
theorem C4_refund_capped_at_gas_limit :
    ∃ s4 b4, tx_execute 1 (.ok 1) txC10 stC4 blk0 = .ok (s4, b4) ∧
      s4.getBalance 1 = some (10 ^ 18 - 210000 + 21000) ∧
      s4.getBalance 9 = some 77 ∧
      (10 ^ 18 - 210000 + 21000 : Nat) ≠ 10 ^ 18 - 210000 + 210000 := by
  refine ⟨_, _, rfl, rfl, rfl, by decide⟩

/-! ### Transaction serialization (`layer1/transaction.rs`, both copies) -/

/-- `impl Encodable for AccessListItem`: the 2-list
`[address, [storage_key, ...]]`. -/
def accessItemRItem (a : AccessItem) : RItem :=
  .list [rlpAddr a.address,
    .list (a.storageKeys.map (fun k => rlpH256 k))]

/-- `to` is a 20-byte address, or the empty string for creation. -/
def txToRItem : Option Nat → RItem
  | some t => rlpAddr t
  | none => .str []

/-- `rlp_append` from `crates/layer1/src/transaction.rs`: an 11-list for
type 1 (`gas_price` mandatory), a 12-list for type 2 (dynamic fee
mandatory), both ending `v, r, s`; other combinations panic. -/
def txRItemCrates (tx : Tx) : Except String RItem :=
  if tx.txType = 1 then
    match tx.gasPriceOrDynamicFee with
    | .gasPrice g =>
        .ok (.list [rlpNat tx.chainId, rlpNat tx.nonce, rlpNat g,
          rlpNat tx.gasLimit, txToRItem tx.toAddr, rlpNat tx.value,
          .str tx.data, .list (tx.accessList.map accessItemRItem),
          rlpNat tx.v, rlpH256 tx.r, rlpH256 tx.s])
    | .dynamicFee _ _ => .error "Type 1 transaction must use gas_price"
  else if tx.txType = 2 then
    match tx.gasPriceOrDynamicFee with
    | .gasPrice _ => .error "Type 2 transaction must use dynamic fee"
    | .dynamicFee p f =>
        .ok (.list [rlpNat tx.chainId, rlpNat tx.nonce, rlpNat p, rlpNat f,
          rlpNat tx.gasLimit, txToRItem tx.toAddr, rlpNat tx.value,
          .str tx.data, .list (tx.accessList.map accessItemRItem),
          rlpNat tx.v, rlpH256 tx.r, rlpH256 tx.s])
  else .error "Unsupported transaction type"

/-- `rlp_append` from `src/layer1/transaction.rs`: same prefix, but the
trailing appends are `v, s, r` (lines 192-194).  (The declared item count —
11 or 12 by type — is not separately modelled; the appended sequence is
what reaches the stream.) -/
def txRItemSrc (tx : Tx) : Except String RItem :=
  if tx.txType = 1 ∨ tx.txType = 2 then
    .ok (.list ([rlpNat tx.chainId, rlpNat tx.nonce] ++
      (match tx.gasPriceOrDynamicFee with
       | .gasPrice g => [rlpNat g]
       | .dynamicFee p f => [rlpNat p, rlpNat f]) ++
      [rlpNat tx.gasLimit, txToRItem tx.toAddr, rlpNat tx.value,
       .str tx.data, .list (tx.accessList.map accessItemRItem),
       rlpNat tx.v, rlpH256 tx.s, rlpH256 tx.r]))
  else .error "Unsupported transaction type"

/-- `Transaction1or2::serialization`: the raw `tx_type` byte, then the RLP
payload. -/
def txSerializationCrates (tx : Tx) : Except String (List Nat) :=
  (txRItemCrates tx).map (fun it => tx.txType :: rlpEncode it)

def txSerializationSrc (tx : Tx) : Except String (List Nat) :=
  (txRItemSrc tx).map (fun it => tx.txType :: rlpEncode it)

/-- The serialization the claim describes, built from its words:
`tx_type || rlp(fields)` with `fields` the canonical 11-tuple (type 1) or
12-tuple (type 2) `[chain_id, nonce, fee..., gas_limit, to_or_empty, value,
data, access_list, v, r, s]`. -/
def txFieldsSpec (tx : Tx) : Option (List RItem) :=
  if tx.txType = 1 then
    match tx.gasPriceOrDynamicFee with
    | .gasPrice g =>
        some [rlpNat tx.chainId, rlpNat tx.nonce, rlpNat g,
          rlpNat tx.gasLimit, txToRItem tx.toAddr, rlpNat tx.value,
          .str tx.data, .list (tx.accessList.map accessItemRItem),
          rlpNat tx.v, rlpH256 tx.r, rlpH256 tx.s]
    | .dynamicFee _ _ => none
  else if tx.txType = 2 then
    match tx.gasPriceOrDynamicFee with
    | .gasPrice _ => none
    | .dynamicFee p f =>
        some [rlpNat tx.chainId, rlpNat tx.nonce, rlpNat p, rlpNat f,
          rlpNat tx.gasLimit, txToRItem tx.toAddr, rlpNat tx.value,
          .str tx.data, .list (tx.accessList.map accessItemRItem),
          rlpNat tx.v, rlpH256 tx.r, rlpH256 tx.s]
  else none

def txSerializationSpec (tx : Tx) : Option (List Nat) :=
  (txFieldsSpec tx).map (fun fs => tx.txType :: rlpEncode (.list fs))

/-- A type-1 transaction with `r = 1 ≠ 2 = s`, enough to expose the order
of the trailing fields. -/
def txC6 : Tx :=
  { txType := 1, nonce := 0, gasLimit := 21000, toAddr := some 2, value := 0,
    r := 1, s := 2, data := [], v := 0, chainId := 1,
    gasPriceOrDynamicFee := .gasPrice 1, accessList := [] }

/-- **C6**: the crates implementation serializes exactly as the claim says
— `tx_type || rlp(canonical fields)` ending `v, r, s` — for every type-1
and type-2 transaction; but the `src/src` copy appends `v, s, r`, so on any
transaction with `r ≠ s` its output differs from the canonical one. -/
theorem C6_serialization_vrs_order :
    (∀ tx : Tx, (txSerializationCrates tx).toOption = txSerializationSpec tx)
    ∧ ∃ a b, txSerializationSrc txC6 = .ok a ∧
        txSerializationSpec txC6 = some b ∧ a ≠ b := by
  constructor
  · intro tx
    by_cases h1 : tx.txType = 1
    · cases hf : tx.gasPriceOrDynamicFee <;>
        simp [txSerializationCrates, txSerializationSpec, txRItemCrates,
          txFieldsSpec, h1, hf, Except.toOption, Except.map]
    · by_cases h2 : tx.txType = 2 <;> cases hf : tx.gasPriceOrDynamicFee <;>
        simp [txSerializationCrates, txSerializationSpec, txRItemCrates,
          txFieldsSpec, h1, h2, hf, Except.toOption, Except.map]
  · exact ⟨_, _, rfl, rfl, by decide⟩

/-! ### Block hashing and header validity (`crates/layer1/src/block.rs`;
the `Receipt`/`Log` RLP comes from `layer1/receipts.rs`, whose crates twin
is absent from this snapshot) -/

/-- `impl Encodable for Log`: `[address, [topic, ...], data]`. -/
def logRItem (l : Log) : RItem :=
  .list [rlpAddr l.address, .list (l.topics.map (fun t => rlpH256 t)),
    .str l.data]

/-- `impl Encodable for Receipt`: the 4-list excluding `tx_type`. -/
def receiptRItem (r : Receipt) : RItem :=
  .list [rlpNat r.statusCode, rlpNat r.cumulativeGasUsed, .str r.logsBloom,
    .list (r.logs.map logRItem)]

/-- The receipt as it lands inside a block: legacy receipts inline, typed
receipts as a type-prefixed byte string. -/
def receiptEnvelopeRItem (r : Receipt) : RItem :=
  if r.txType = 0 then receiptRItem r
  else .str (r.txType :: rlpEncode (receiptRItem r))

/-- `impl Encodable for Withdrawal`. -/
def withdrawalRItem (w : Withdrawal) : RItem :=
  .list [rlpNat w.globalIndex, rlpNat w.validatorIndex, rlpAddr w.recipient,
    rlpNat w.amount]

/-- `impl Encodable for BlockHeader`: 19 items in the canonical order. -/
def headerRItem (h : BlockHeader) : RItem :=
  .list [rlpH256 h.parent_hash, rlpH256 h.ommers_hash, rlpAddr h.beneficiary,
    rlpH256 h.state_root, rlpH256 h.transactions_root,
    rlpH256 h.receipts_root, .str h.logs_bloom, rlpNat h.difficulty,
    rlpNat h.number, rlpNat h.gas_limit, rlpNat h.gas_used,
    rlpNat h.timestamp, .str h.extra_data, rlpH256 h.prev_randao,
    rlpNat h.nonce, rlpNat h.base_fee, rlpH256 h.withdrawals_root,
    rlpNat h.excess_blob_gas, rlpNat h.blob_gas_used]

def exceptMap {α β : Type} (f : α → Except String β) :
    List α → Except String (List β)
  | [] => .ok []
  | a :: rest =>
    match f a with
    | .error e => .error e
    | .ok b =>
      match exceptMap f rest with
      | .error e => .error e
      | .ok bs => .ok (b :: bs)

/-- `impl Encodable for Block`: the 4-list
`[header, transactions, receipts, withdrawals]` (transactions through
`Transaction1or2::rlp_append`, which panics on malformed type/fee
combinations). -/
def blockRItem (b : Block) : Except String RItem :=
  match exceptMap txRItemCrates b.transactions with
  | .error e => .error e
  | .ok txs =>
    .ok (.list [headerRItem b.header, .list txs,
      .list (b.receipts.map receiptEnvelopeRItem),
      .list (b.withdrawals.map withdrawalRItem)])

/-- `Block::hash`: keccak of the RLP of the *whole block envelope*. -/
def Block.hash (b : Block) : Except String (List Nat) :=
  (blockRItem b).map (fun it => keccak256 (rlpEncode it))

/-- `Block::header_validity_check`. -/
def header_validity_check (b parent : Block) : Except String Unit :=
  match Block.hash parent with
  | .error e => .error e
  | .ok ph =>
    if natBEFixed 32 b.header.parent_hash ≠ ph then
      .error "parent_hash mismatch"
    else if b.header.number ≠ parent.header.number + 1 then
      .error "number not match"
    else if b.header.gas_limit = 0 then .error "gas_limit is zero"
    else if b.header.timestamp = 0 then .error "timestamp is zero"
    else if b.header.base_fee = 0 then .error "base_fee is zero"
    else .ok ()

/-- **C8** (counterexample to the claim as stated): `Block::hash` runs
keccak over the RLP of the whole 4-item block envelope, not of the 19-field
header alone — already on `blk0` the two digests differ. -/
theorem C8_counterexample :
    ∃ h, Block.hash blk0 = .ok h ∧
      h ≠ keccak256 (rlpEncode (headerRItem blk0.header)) := by
  refine ⟨_, rfl, by decide⟩

/-- **C8** (amended): the block hash is keccak of the RLP of the 4-item
envelope `[header, transactions, receipts, withdrawals]`, and
`header_validity_check` accepts exactly when `parent_hash` matches that
envelope hash of the parent, the number is the successor, and `gas_limit`,
`timestamp` and `base_fee` are non-zero. -/
theorem C8_header_validity_uses_envelope_hash (b parent : Block)
    (ph : List Nat) (hph : Block.hash parent = .ok ph) :
    header_validity_check b parent = .ok () ↔
      natBEFixed 32 b.header.parent_hash = ph ∧
      b.header.number = parent.header.number + 1 ∧
      b.header.gas_limit ≠ 0 ∧ b.header.timestamp ≠ 0 ∧
      b.header.base_fee ≠ 0 := by
  unfold header_validity_check
  rw [hph]
  by_cases h1 : natBEFixed 32 b.header.parent_hash = ph <;>
    by_cases h2 : b.header.number = parent.header.number + 1 <;>
      by_cases h3 : b.header.gas_limit = 0 <;>
        by_cases h4 : b.header.timestamp = 0 <;>
          by_cases h5 : b.header.base_fee = 0 <;>
            simp [h1, h2, h3, h4, h5]

/-- The envelope hash of `blk0`. -/
def phBlk0 : List Nat :=
  match Block.hash blk0 with
  | .ok h => h
  | .error _ => []

/-- A well-formed child of `blk0`. -/
def blkC8child : Block :=
  { blk0 with header := { blk0.header with
      parent_hash := beToNat phBlk0, number := 1, timestamp := 1 } }

/-- Witness for C8: the crafted child of `blk0` passes
`header_validity_check`. -/
theorem C8_header_validity_witness :
    header_validity_check blkC8child blk0 = .ok () :=
  (C8_header_validity_uses_envelope_hash blkC8child blk0 phBlk0 rfl).mpr
    ⟨by decide, rfl, by decide, by decide, by decide⟩

end Mylayer2

namespace Mylayer2

/-! ## Validation of the hashing stack against published test vectors -/

/-- Keccak-256 of the empty string. -/
theorem keccak256_empty_correct : keccak256 [] =
    [0xc5, 0xd2, 0x46, 0x01, 0x86, 0xf7, 0x23, 0x3c, 0x92, 0x7e, 0x7d, 0xb2,
     0xdc, 0xc7, 0x03, 0xc0, 0xe5, 0x00, 0xb6, 0x53, 0xca, 0x82, 0x27, 0x3b,
     0x7b, 0xfa, 0xd8, 0x04, 0x5d, 0x85, 0xa4, 0x70] := by decide

/-- `keccak(rlp(""))`, Ethereum's empty-trie root. -/
theorem empty_trie_hash_correct : keccak256 (rlpEncode (.str [])) =
    [0x56, 0xe8, 0x1f, 0x17, 0x1b, 0xcc, 0x55, 0xa6, 0xff, 0x83, 0x45, 0xe6,
     0x92, 0xc0, 0xf8, 0x6e, 0x5b, 0x48, 0xe0, 0x1b, 0x99, 0x6c, 0xad, 0xc0,
     0x01, 0x62, 0x2f, 0xb5, 0xe3, 0x63, 0xb4, 0x21] := by decide

/-- The Ethereum reference trie fixture
`{do: verb, dog: puppy, doge: coin, horse: stallion}` hashes to its
published root under the embedded `ModifiedTrie`. -/
theorem trie_fixture_root_correct :
    ((((ModifiedTrie.new.insert [0x64, 0x6f] [0x76, 0x65, 0x72, 0x62]).insert
        [0x64, 0x6f, 0x67] [0x70, 0x75, 0x70, 0x70, 0x79]).insert
        [0x64, 0x6f, 0x67, 0x65] [0x63, 0x6f, 0x69, 0x6e]).insert
        [0x68, 0x6f, 0x72, 0x73, 0x65]
        [0x73, 0x74, 0x61, 0x6c, 0x6c, 0x69, 0x6f, 0x6e]).rootHash =
    [0x59, 0x91, 0xbb, 0x8c, 0x65, 0x14, 0x14, 0x8a, 0x29, 0xdb, 0x67, 0x6a,
     0x14, 0xac, 0x50, 0x6c, 0xd2, 0xcd, 0x57, 0x75, 0xac, 0xe6, 0x3c, 0x30,
     0xa4, 0xfe, 0x45, 0x77, 0x15, 0xe9, 0xac, 0x84] := by decide

end Mylayer2
